import Mathlib

/-!
Verification development for the KNOW-NET-COMPET graph synchronization core.

This file gives a shallow embedding of the repository's graph-sync engine:

* `elt_core/neo4j_queries.py` — Cypher statement builders
  (`generate_merge_node_query`, `generate_merge_relationship_query`,
  `generate_batch_merge_nodes_query`, `generate_batch_merge_relationships_query`);
* `elt_core/graph_loader.py` — the sync engine (`sync_gold_db`,
  `_insert_batch_nodes`, `_insert_batch_relationships`);
* `elt_core/graph_enrichment.py` — the enrichment passes
  (`create_competed_with`, `merge_duplicate_persons`).

The graph store itself is external to the repository; the statements the
builders emit are fixed Cypher shapes, and we model their store-side meaning
(`MERGE` on a node by `(label, id)` then `SET n = item`; `MATCH`/`MATCH`/`MERGE`
for relationships) as executable functions on an explicit graph state, under the
store assumption the spec itself makes (identity-based upsert).  Python dicts
become association lists, Python exceptions become `Except`/`Option`.
-/

set_option maxRecDepth 4000

/-- A Neo4j/JSON-ish scalar value (the property values the pipeline uses). -/
inductive Val where
  | str (s : String)
  | int (n : Int)
  | bool (b : Bool)
  deriving DecidableEq, Repr

/-- A Python dict of properties, as an association list (first binding wins on
lookup; the pipeline's dicts have unique keys). -/
abbrev PropMap := List (String × Val)

/-- Dict lookup: `d.get(k)`. -/
def getProp (m : PropMap) (k : String) : Option Val :=
  (m.find? (fun p => p.1 == k)).map (fun p => p.2)

/-- Dict update `d[k] = v`: replace the first binding of `k` in place, else
append. -/
def setProp (k : String) (v : Val) : PropMap → PropMap
  | [] => [(k, v)]
  | (k', v') :: rest =>
    if k' = k then (k, v) :: rest else (k', v') :: setProp k v rest

/-- Additive merge `base.update(upd)` / Cypher `SET x += $upd`: existing keys
are kept unless overwritten by the same key. -/
def mergeProps (base upd : PropMap) : PropMap :=
  upd.foldl (fun acc p => setProp p.1 p.2 acc) base

/-- Python truthiness of a value (`if item_id:` etc.). -/
def pyTruthy : Val → Bool
  | .str s => !(s == "")
  | .int n => !(n == 0)
  | .bool b => b

/-- `pre.isPrefixOf s` on code points (`str.startswith` / Cypher
`STARTS WITH`), written over char lists so that it evaluates by kernel
reduction. -/
def strStartsWith (s pre : String) : Bool :=
  pre.toList.isPrefixOf s.toList

/-- Lexicographic `<` on char lists (the order `String.lt` denotes). -/
def charListLt : List Char → List Char → Bool
  | [], [] => false
  | [], _ :: _ => true
  | _ :: _, [] => false
  | a :: as, b :: bs =>
    if a < b then true else if b < a then false else charListLt as bs

/-- Python `str.capitalize()`: first character upper-cased, the rest lowered. -/
def pyCapitalize (s : String) : String :=
  match s.toList with
  | [] => ""
  | c :: rest => String.mk (c.toUpper :: rest.map Char.toLower)

/-- Label normalization in `_insert_batch_nodes` (graph_loader.py:307-312):
keep the entity-type name if its first character is upper case, else
capitalize it.  (For an empty type name the source would raise an
`IndexError`; the pipeline never produces one, and we map it to `""`.) -/
def labelOf (entityType : String) : String :=
  match entityType.toList with
  | [] => ""
  | c :: _ => if c.isUpper then entityType else pyCapitalize entityType

/-- Cypher `<` on property values: defined on two values of the same
comparable type, and (as in Cypher, where a mixed comparison is `null`,
which a `WHERE` treats as false) false otherwise. -/
def ltVal : Val → Val → Bool
  | .str a, .str b => charListLt a.toList b.toList
  | .int a, .int b => decide (a < b)
  | _, _ => false

/-- A graph node: one label and a property map (identity is the `id`
property, matched by the generated statements). -/
structure GNode where
  label : String
  props : PropMap
  deriving DecidableEq, Repr

/-- A directed, typed edge; endpoints are referenced by `(label, id)`. -/
structure GEdge where
  fromLabel : String
  fromId : Val
  toLabel : String
  toId : Val
  relType : String
  props : PropMap
  deriving DecidableEq, Repr

/-- The graph-store state. -/
structure Graph where
  nodes : List GNode
  edges : List GEdge
  deriving DecidableEq, Repr

/-- A node identity: `(label, value of the id property)`. -/
abbrev NodeKey := String × Val

/-- `MATCH (n:label {id: $v})` on a node list, first match. -/
def findNodeL (ns : List GNode) (k : NodeKey) : Option GNode :=
  ns.find? (fun nd => nd.label == k.1 && getProp nd.props "id" == some k.2)

/-- `MATCH (n:label {id: $v})`, first match. -/
def findNode (g : Graph) (k : NodeKey) : Option GNode :=
  findNodeL g.nodes k

/-- Property map of the first node with identity `k` in a node list. -/
def getPropsL (ns : List GNode) (k : NodeKey) : Option PropMap :=
  (findNodeL ns k).map (fun nd => nd.props)

/-- Property map of the node with identity `k`, if present. -/
def getNodeProps (g : Graph) (k : NodeKey) : Option PropMap :=
  (findNode g k).map (fun nd => nd.props)

/-- Store semantics of one `MERGE (n:label {id: v}) SET n = item` row:
replace the first matching node's entire property set by `item`, or create
the node if no match exists.  This is the identity-based upsert the spec
assumes of the store. -/
def upsertNodeK (k : NodeKey) (item : PropMap) : List GNode → List GNode
  | [] => [⟨k.1, item⟩]
  | nd :: rest =>
    if nd.label = k.1 ∧ getProp nd.props "id" = some k.2 then
      ⟨k.1, item⟩ :: rest
    else
      nd :: upsertNodeK k item rest

/-- An edge identity: `(fromLabel, fromId, toLabel, toId, relType)`. -/
abbrev EdgeKey := String × Val × String × Val × String

def edgeKey (e : GEdge) : EdgeKey :=
  (e.fromLabel, e.fromId, e.toLabel, e.toId, e.relType)

/-- Does the graph contain an edge with this identity? -/
def hasEdge (es : List GEdge) (k : EdgeKey) : Bool :=
  es.any (fun e => edgeKey e == k)

/-- Store semantics of `MERGE (from)-[r:TYPE]->(to)` with no property clause:
create the edge (with empty properties) if absent, else leave the edge list
unchanged. -/
def mergeEdgeK (k : EdgeKey) (es : List GEdge) : List GEdge :=
  if hasEdge es k then es else es ++ [⟨k.1, k.2.1, k.2.2.1, k.2.2.2.1, k.2.2.2.2, []⟩]

/-- Properties of the first edge with identity `k`. -/
def getEdgeProps (es : List GEdge) (k : EdgeKey) : Option PropMap :=
  ((es.find? (fun e => edgeKey e == k))).map (fun e => e.props)

/-! ## Query generation (`elt_core/neo4j_queries.py`)

The builders return the literal Cypher text together with the parameters,
exactly as the Python functions do (after `.strip()`).  Literal braces in the
Cypher text are written with hex escapes. -/

/-- A relationship dict as consumed by the batch builder
(`from_label`/`from_id`/`to_label`/`to_id`/`rel_type`); `props` stands for any
further entries the dict may carry — the batch builder never reads them. -/
structure RelItem where
  from_label : String
  from_id : Val
  to_label : String
  to_id : Val
  rel_type : String
  props : PropMap := []
  deriving DecidableEq, Repr

/-- Parameters of `generate_merge_relationship_query`; `props` is present only
when the properties argument is truthy. -/
structure RelQueryParams where
  from_id : Val
  to_id : Val
  props : Option PropMap
  deriving DecidableEq, Repr

/-- Python truthiness of an `Optional[Dict]` argument (`if properties:`). -/
def pyTruthyOpt : Option PropMap → Bool
  | some p => !p.isEmpty
  | none => false

/-- `generate_merge_relationship_query` (neo4j_queries.py:56-104): MATCH both
endpoints by id, MERGE the typed edge, and — only when `properties` is truthy —
append a wholesale `SET r = $props` clause. -/
def generate_merge_relationship_query (from_label : String) (from_id : Val)
    (to_label : String) (to_id : Val) (rel_type : String)
    (properties : Option PropMap) : String × RelQueryParams :=
  let base :=
    "MATCH (from:" ++ from_label ++ " \x7bid: $from_id\x7d)\n    MATCH (to:" ++
      to_label ++ " \x7bid: $to_id\x7d)\n    MERGE (from)-[r:" ++ rel_type ++ "]->(to)\n    "
  if pyTruthyOpt properties then
    (base ++ "SET r = $props\nRETURN r", ⟨from_id, to_id, properties⟩)
  else
    (base ++ "RETURN r", ⟨from_id, to_id, none⟩)

/-- `generate_batch_merge_nodes_query` (neo4j_queries.py:107-134): one UNWIND
statement that merges each item by `(label, id_field)` and then replaces the
node's whole property set (`SET n = item`). -/
def generate_batch_merge_nodes_query (label idField : String)
    (batch_items : List PropMap) : String × List PropMap :=
  ("UNWIND $batch AS item\n    MERGE (n:" ++ label ++ " \x7b" ++ idField ++
      ": item." ++ idField ++ "\x7d)\n    SET n = item\n    RETURN count(n) as created_count",
    batch_items)

/-- Append a relationship to its type's group, preserving first-encounter
group order (Python dict insertion order). -/
def addToGroups (t : String) (r : RelItem) :
    List (String × List RelItem) → List (String × List RelItem)
  | [] => [(t, [r])]
  | (t', rs) :: rest =>
    if t' = t then (t', rs ++ [r]) :: rest else (t', rs) :: addToGroups t r rest

/-- The grouping loop of `generate_batch_merge_relationships_query`
(neo4j_queries.py:171-177). -/
def groupByType (rels : List RelItem) : List (String × List RelItem) :=
  rels.foldl (fun acc r => addToGroups r.rel_type r acc) []

/-- The Cypher text emitted for one relationship-type group: the endpoint
labels are taken from a single (from,to) label pair — the source uses
`rels[0]`'s labels for the whole group. -/
def relGroupCypher (relType fromLabel toLabel : String) : String :=
  "UNWIND $batch AS item\n        MATCH (from:" ++ fromLabel ++
    " \x7bid: item.from_id\x7d)\n        MATCH (to:" ++ toLabel ++
    " \x7bid: item.to_id\x7d)\n        MERGE (from)-[r:" ++ relType ++
    "]->(to)\n        RETURN count(r) as created_count"

/-- `generate_batch_merge_relationships_query` (neo4j_queries.py:137-193):
group by `rel_type`, then emit one statement per group whose endpoint labels
come from the group's first relationship; the parameters are the group's
items, passed through unchanged. -/
def generate_batch_merge_relationships_query (relationships : List RelItem) :
    List (String × List RelItem) :=
  (groupByType relationships).map (fun g =>
    match g.2 with
    | [] => ("", g.2)  -- unreachable: every group the loop builds is nonempty
    | h :: _ => (relGroupCypher g.1 h.from_label h.to_label, g.2))

/-! ## Store semantics of the generated statements

The statements above are fixed Cypher shapes; under the store assumption the
spec makes (identity-based upsert, unique `(label, id)`) their effect on a
`Graph` is the following executable semantics. -/

/-- The structured content of a generated batch statement (what the store
receives: `Stmt.nodes` for node upserts built with `id_field='id'` as the
loader always does, `Stmt.rels` for one relationship-type group, whose match
labels are the ones baked into the statement text). -/
inductive Stmt where
  | nodes (label : String) (batch : List PropMap)
  | rels (relType fromLabel toLabel : String) (batch : List RelItem)
  deriving DecidableEq, Repr

/-- One UNWIND row of the node-batch statement: `MERGE (n:label {id: item.id})
SET n = item`.  An item without an `id` entry matches nothing (the loader's
dedup step guarantees every flushed item has a truthy id). -/
def upsertNodeItem (label : String) (item : PropMap) (ns : List GNode) : List GNode :=
  match getProp item "id" with
  | none => ns
  | some v => upsertNodeK (label, v) item ns

/-- All rows of a node-batch statement, in order. -/
def execNodeBatch (label : String) (batch : List PropMap) (ns : List GNode) : List GNode :=
  batch.foldl (fun acc item => upsertNodeItem label item acc) ns

/-- One UNWIND row of a relationship-group statement: MATCH both endpoints by
`(label, id)` — using the statement's baked-in labels — and, when both exist,
MERGE the edge (no property clause). -/
def relBatchRow (relType fromLabel toLabel : String) (ns : List GNode)
    (es : List GEdge) (it : RelItem) : List GEdge :=
  if (findNodeL ns (fromLabel, it.from_id)).isSome &&
      (findNodeL ns (toLabel, it.to_id)).isSome then
    mergeEdgeK (fromLabel, it.from_id, toLabel, it.to_id, relType) es
  else es

/-- All rows of a relationship-group statement, in order. -/
def execRelBatch (relType fromLabel toLabel : String) (batch : List RelItem)
    (g : Graph) : List GEdge :=
  batch.foldl (relBatchRow relType fromLabel toLabel g.nodes) g.edges

/-- Effect of a statement on the store. -/
def execStmt : Stmt → Graph → Graph
  | .nodes label batch, g => { g with nodes := execNodeBatch label batch g.nodes }
  | .rels t fl tl batch, g => { g with edges := execRelBatch t fl tl batch g }

/-- The `created_count` the store reports: `count(n)` is the number of UNWIND
rows; `count(r)` is the number of rows whose two MATCHes succeeded. -/
def countOfStmt : Stmt → Graph → Nat
  | .nodes _ batch, _ => batch.length
  | .rels _ fl tl batch, g =>
    (batch.filter (fun it => (findNode g (fl, it.from_id)).isSome &&
      (findNode g (tl, it.to_id)).isSome)).length

/-- A graph store that can fail: `none` models a network/store exception
raised while executing a statement (the statement then has no effect). -/
abbrev GStore := Stmt → Graph → Option (Graph × Nat)

/-- The always-successful store with the Cypher semantics above. -/
def pureStore : GStore := fun s g => some (execStmt s g, countOfStmt s g)

/-- Store semantics of the statement built by
`generate_merge_relationship_query`: MATCH both endpoints; MERGE the edge;
when the properties argument was truthy, `SET r = $props` replaces the
matched edge's property set wholesale. -/
def execMergeRelationship (from_label : String) (from_id : Val)
    (to_label : String) (to_id : Val) (rel_type : String)
    (properties : Option PropMap) (g : Graph) : Graph :=
  if (findNode g (from_label, from_id)).isSome &&
      (findNode g (to_label, to_id)).isSome then
    let k : EdgeKey := (from_label, from_id, to_label, to_id, rel_type)
    if pyTruthyOpt properties then
      let p := properties.getD []
      if hasEdge g.edges k then
        { g with edges :=
            g.edges.map (fun e => if edgeKey e == k then { e with props := p } else e) }
      else
        { g with edges := g.edges ++ [⟨from_label, from_id, to_label, to_id, rel_type, p⟩] }
    else
      { g with edges := mergeEdgeK k g.edges }
  else g

/-! ## The sync engine (`elt_core/graph_loader.py`) -/

/-- One step of the dedup loop of `_insert_batch_nodes`
(graph_loader.py:293-302): state is `(seen ids, unique_items)`; an item is
kept iff its `id` is truthy and not yet seen. -/
def dedupStep (acc : List Val × List PropMap) (item : PropMap) :
    List Val × List PropMap :=
  match getProp item "id" with
  | some v =>
    if pyTruthy v && !(acc.1.contains v) then (acc.1 ++ [v], acc.2 ++ [item]) else acc
  | none => acc

/-- The dedup pass of `_insert_batch_nodes`: the surviving items (first
occurrence of each truthy id, in input order) and `duplicates_removed`. -/
def dedupById (items : List PropMap) : List PropMap × Nat :=
  let uniq := (items.foldl dedupStep ([], [])).2
  (uniq, items.length - uniq.length)

/-- A trace event: one statement handed to the store
(`session.run(query, params)`). -/
inductive Ev where
  | nodeFlush (label : String) (batch : List PropMap)
  | relFlush (relType : String)
  deriving DecidableEq, Repr

def Ev.isNodeFlush : Ev → Bool
  | .nodeFlush _ _ => true
  | .relFlush _ => false

/-- `_insert_batch_nodes` (graph_loader.py:277-341): for each entity-type
buffer, dedup, build the batch statement, and run it; a store failure for one
label is caught, logged, and the loop continues with the next label.  Returns
the new store state, `total_created`, and the statements attempted. -/
def insertBatchNodes (store : GStore) :
    List (String × List PropMap) → Graph → Graph × Nat × List Ev
  | [], g => (g, 0, [])
  | (etype, items) :: rest, g =>
    if items.isEmpty then insertBatchNodes store rest g
    else
      let uniq := (dedupById items).1
      if uniq.isEmpty then insertBatchNodes store rest g
      else
        let label := labelOf etype
        match store (Stmt.nodes label uniq) g with
        | some gc =>
          let res := insertBatchNodes store rest gc.1
          (res.1, gc.2 + res.2.1, Ev.nodeFlush label uniq :: res.2.2)
        | none =>
          -- exception: logged and swallowed, loop continues, count unchanged
          let res := insertBatchNodes store rest g
          (res.1, res.2.1, Ev.nodeFlush label uniq :: res.2.2)

/-- The session loop of `_insert_batch_relationships`
(graph_loader.py:362-380) over the generated per-type statements.  The single
`try` wraps the whole loop: a store failure aborts the remaining groups and
the function returns 0 (`none` below marks the abort). -/
def insertRelsGo (store : GStore) :
    List (String × List RelItem) → Graph → Graph × Option Nat × List Ev
  | [], g => (g, some 0, [])
  | (t, rs) :: rest, g =>
    let stmt := match rs with
      | [] => Stmt.rels t "" "" rs  -- unreachable: groups are nonempty
      | h :: _ => Stmt.rels t h.from_label h.to_label rs
    match store stmt g with
    | some gc =>
      let res := insertRelsGo store rest gc.1
      (res.1, res.2.1.map (gc.2 + ·), Ev.relFlush t :: res.2.2)
    | none => (g, none, [Ev.relFlush t])

/-- `_insert_batch_relationships`: group by type, run each group's statement;
on a store failure the exception is caught, the whole call reports 0 created,
and the run continues (with the next window). -/
def insertBatchRels (store : GStore) (relationships : List RelItem) (g : Graph) :
    Graph × Nat × List Ev :=
  if relationships.isEmpty then (g, 0, [])
  else
    let res := insertRelsGo store (groupByType relationships) g
    (res.1, res.2.1.getD 0, res.2.2)

/-- One validation error entry (`self.validation_errors.append(...)`,
graph_loader.py:211-215): the record's id (`raw_doc.get('_id', 'unknown')`)
and the message. -/
structure ErrEntry where
  doc_id : Val
  msg : String
  deriving DecidableEq, Repr

/-- The mapper's view of a raw document: a dict. -/
abbrev RawDoc := PropMap

/-- `raw_doc.get('_id', '').startswith('_')` — design/system records are
skipped before mapping. -/
def pySkip (d : RawDoc) : Bool :=
  match getProp d "_id" with
  | some (.str s) => strStartsWith s "_"
  | _ => false

/-- `raw_doc.get('_id', 'unknown')`. -/
def errId (d : RawDoc) : Val :=
  (getProp d "_id").getD (.str "unknown")

/-- The mapper's output for one record (`GraphBatch`): per-entity-type node
items plus relationships (the source carries the latter under the reserved
dict key `'relationships'`). -/
structure GraphBatch where
  entities : List (String × List PropMap)
  rels : List RelItem
  deriving Repr

/-- A document mapper; a Python exception becomes `.error msg`. -/
abbrev Mapper := RawDoc → Except String GraphBatch

/-- Append one mapped batch's node items to the per-type accumulator
(graph_loader.py:199-203); empty item lists are skipped (`elif items:`). -/
def addEntities (acc : List (String × List PropMap))
    (ents : List (String × List PropMap)) : List (String × List PropMap) :=
  ents.foldl (fun a p =>
    if p.2.isEmpty then a
    else match a.find? (fun q => q.1 == p.1) with
      | some _ => a.map (fun q => if q.1 == p.1 then (q.1, q.2 ++ p.2) else q)
      | none => a ++ [p]) acc

/-- Accumulated state of the mapping phase of one window
(graph_loader.py:176-216). -/
structure MapAcc where
  entities : List (String × List PropMap) := []
  rels : List RelItem := []
  success : Nat := 0
  failed : Nat := 0
  errors : List ErrEntry := []
  deriving Repr

/-- Process one raw document of a window: skip reserved ids; on mapper
success accumulate its entities and relationships; on mapper failure record
one error entry with the record's id and count the record as failed. -/
def mapDoc (mapper : Mapper) (acc : MapAcc) (d : RawDoc) : MapAcc :=
  if pySkip d then acc
  else
    match mapper d with
    | .ok gb =>
      { acc with
        entities := addEntities acc.entities gb.entities
        rels := acc.rels ++ gb.rels
        success := acc.success + 1 }
    | .error e =>
      { acc with
        failed := acc.failed + 1
        errors := acc.errors ++ [⟨errId d, e⟩] }

/-- The mapping phase of one window. -/
def mapPhase (mapper : Mapper) (w : List RawDoc) : MapAcc :=
  w.foldl (mapDoc mapper) {}

/-- Partition the fetched documents into fixed-size windows
(`range(0, len(all_docs), batch_size)`).  Python raises for
`batch_size <= 0`; we only model positive sizes and clamp with `max · 1` to
stay total. -/
def chunksGo (bs : Nat) : Nat → List RawDoc → List (List RawDoc)
  | 0, _ => []
  | _, [] => []
  | fuel + 1, d :: rest =>
    ((d :: rest).take (max bs 1)) :: chunksGo bs fuel ((d :: rest).drop (max bs 1))

def chunks (bs : Nat) (l : List RawDoc) : List (List RawDoc) :=
  chunksGo bs l.length l

/-- Result of a sync run: the store state, the `SyncStats` counters, the
validation-error list, and (per window, in order) the statements attempted. -/
structure SyncResult where
  graph : Graph
  processed : Nat := 0
  failed : Nat := 0
  errors : List ErrEntry := []
  nodesCreated : Nat := 0
  relsCreated : Nat := 0
  traces : List (List Ev) := []
  deriving Repr

/-- One window of `sync_gold_db` (graph_loader.py:172-235): map every
document, then flush all node buffers, then — only if the window accumulated
any relationships — flush the relationship buffer. -/
def processWindow (store : GStore) (mapper : Mapper) (w : List RawDoc)
    (r : SyncResult) : SyncResult :=
  let acc := mapPhase mapper w
  let nres := insertBatchNodes store acc.entities r.graph
  let rres :=
    if acc.rels.isEmpty then (nres.1, 0, ([] : List Ev))
    else insertBatchRels store acc.rels nres.1
  { graph := rres.1
    processed := r.processed + acc.success
    failed := r.failed + acc.failed
    errors := r.errors ++ acc.errors
    nodesCreated := r.nodesCreated + nres.2.1
    relsCreated := r.relsCreated + rres.2.1
    traces := r.traces ++ [nres.2.2 ++ rres.2.2] }

/-- `sync_gold_db` after a successful fetch: process the fetched documents
window by window against the given store.  (`validation_errors` is reset at
the start of a run, so the accumulators start empty.) -/
def sync_gold_db (store : GStore) (docs : List RawDoc) (mapper : Mapper)
    (batchSize : Nat) (g0 : Graph) : SyncResult :=
  (chunks batchSize docs).foldl (fun r w => processWindow store mapper w r)
    { graph := g0 }

/-! ## Enrichment passes (`elt_core/graph_enrichment.py`) -/

/-- Keep the first occurrence of each element (Cypher `DISTINCT` in match
order). -/
def firstDedupAux {α : Type} [DecidableEq α] (seen : List α) : List α → List α
  | [] => []
  | a :: rest =>
    if a ∈ seen then firstDedupAux seen rest
    else a :: firstDedupAux (seen ++ [a]) rest

def firstDedup {α : Type} [DecidableEq α] (l : List α) : List α :=
  firstDedupAux [] l

/-- Does this edge witness `(a:Entity {id:aId})-[:IS_TENDERER_FOR]->(t:Tender)`
with `t` an existing Tender node (node list `ns`)? -/
def tendererEdge (ns : List GNode) (aId : Val) (e : GEdge) : Bool :=
  e.relType == "IS_TENDERER_FOR" && e.fromLabel == "Entity" &&
    e.fromId == aId && e.toLabel == "Tender" &&
    (findNodeL ns ("Tender", e.toId)).isSome

/-- The distinct tenders an entity is a tenderer for. -/
def tendererTendersOfL (ns : List GNode) (es : List GEdge) (aId : Val) : List Val :=
  ((es.filter (tendererEdge ns aId)).map (fun e => e.toId)).dedup

def tendererTendersOf (g : Graph) (aId : Val) : List Val :=
  tendererTendersOfL g.nodes g.edges aId

/-- `count(DISTINCT t)` over the shared-tender pattern for a fixed pair. -/
def sharedTenderCount (g : Graph) (aId bId : Val) : Nat :=
  ((tendererTendersOf g aId).filter
    (fun v => (tendererTendersOf g bId).contains v)).length

/-- One aggregated row of the `create_competed_with` query
(graph_enrichment.py:21-28): a pair of Entity ids with `a.id < b.id` and the
number of distinct shared tenders (a row exists only when the pattern
matched, i.e. the count is positive). -/
structure CompRow where
  aId : Val
  bId : Val
  cc : Nat
  deriving DecidableEq, Repr

def entityNodes (g : Graph) : List GNode :=
  g.nodes.filter (fun nd => nd.label == "Entity")

/-- All aggregated rows of the `create_competed_with` query, computed on the
pre-pass graph (the MERGE writes only `COMPETED_WITH` edges, which the match
pattern never reads). -/
def competedRows (g : Graph) : List CompRow :=
  (entityNodes g).flatMap (fun a =>
    (entityNodes g).filterMap (fun b =>
      match getProp a.props "id", getProp b.props "id" with
      | some va, some vb =>
        if ltVal va vb then
          let cc := sharedTenderCount g va vb
          if 0 < cc then some ⟨va, vb, cc⟩ else none
        else none
      | _, _ => none))

/-- Does an edge match the undirected pattern
`(a:Entity {id:aId})-[:COMPETED_WITH]-(b:Entity {id:bId})`? -/
def cwMatches (aId bId : Val) (e : GEdge) : Bool :=
  e.relType == "COMPETED_WITH" && e.fromLabel == "Entity" && e.toLabel == "Entity" &&
    ((e.fromId == aId && e.toId == bId) || (e.fromId == bId && e.toId == aId))

/-- `MERGE (a)-[r:COMPETED_WITH]-(b) SET r.competition_count = cc` for one
row: if an undirected match exists, overwrite `competition_count` on every
matched edge; otherwise create the edge (direction a→b) carrying the count. -/
def upsertCompetedWith (aId bId : Val) (cc : Nat) (g : Graph) : Graph :=
  if g.edges.any (cwMatches aId bId) then
    { g with edges := g.edges.map (fun e =>
        if cwMatches aId bId e then
          { e with props := setProp "competition_count" (.int cc) e.props }
        else e) }
  else
    { g with edges := g.edges ++
        [⟨"Entity", aId, "Entity", bId, "COMPETED_WITH",
          [("competition_count", .int cc)]⟩] }

/-- `create_competed_with` (graph_enrichment.py:10-31). -/
def create_competed_with (g : Graph) : Graph :=
  (competedRows g).foldl (fun h row => upsertCompetedWith row.aId row.bId row.cc h) g

/-- `d[k]` deletion (Neo4j `SET n.k = null` removes the property). -/
def delProp (k : String) (m : PropMap) : PropMap :=
  m.filter (fun p => !(p.1 == k))

def idOf (nd : GNode) : Option Val := getProp nd.props "id"

/-- `person.id STARTS WITH "pep:"` (a non-string id compares as null, which
the surrounding predicate treats as false). -/
def isPepId : Option Val → Bool
  | some (.str s) => strStartsWith s "pep:"
  | _ => false

/-- `NOT person.id STARTS WITH "pep:"` (null again drops the person). -/
def isNonPepId : Option Val → Bool
  | some (.str s) => !(strStartsWith s "pep:")
  | _ => false

/-- The duplicate-detection query of `merge_duplicate_persons`
(graph_enrichment.py:56-70): persons associated with some entity, grouped by
name; groups with more than one member containing both a `pep:` and a
non-`pep:` id yield one `(canonical_id, duplicate_id)` pair per `pep:`
member, the canonical being the first non-`pep:` person of the group. -/
def findDuplicatePairs (g : Graph) : List (Val × Val) :=
  let persons := firstDedup (g.edges.filterMap (fun e =>
    if e.relType == "ASSOCIATED_WITH" && e.fromLabel == "Person" &&
        e.toLabel == "Entity" && (findNode g ("Entity", e.toId)).isSome then
      findNode g ("Person", e.fromId)
    else none))
  let names := firstDedup (persons.map (fun p => getProp p.props "person_name"))
  names.flatMap (fun nm =>
    let people := persons.filter (fun p => getProp p.props "person_name" == nm)
    if 1 < people.length && people.any (fun p => isPepId (idOf p)) &&
        people.any (fun p => isNonPepId (idOf p)) then
      match (people.filter (fun p => isNonPepId (idOf p))).head? with
      | some canon =>
        match idOf canon with
        | some cid =>
          (people.filter (fun p => isPepId (idOf p))).filterMap
            (fun d => (idOf d).map (fun did => (cid, did)))
        | none => []
      | none => []
    else [])

/-- Update (in place) the first node matching `(label, id)`. -/
def updFirstNode (k : NodeKey) (f : PropMap → PropMap) : List GNode → List GNode
  | [] => []
  | nd :: rest =>
    if nd.label = k.1 ∧ getProp nd.props "id" = some k.2 then
      { nd with props := f nd.props } :: rest
    else nd :: updFirstNode k f rest

/-- `MATCH (n {id: $v})` — any label, first match. -/
def findNodeByIdAny (g : Graph) (v : Val) : Option GNode :=
  g.nodes.find? (fun nd => getProp nd.props "id" == some v)

/-- `MERGE (x)-[r:TYPE]->(y) SET r += $props`: additive property merge on
every matched edge, or creation with exactly the given properties. -/
def mergeEdgeAddProps (k : EdgeKey) (p : PropMap) (es : List GEdge) : List GEdge :=
  if hasEdge es k then
    es.map (fun e => if edgeKey e == k then { e with props := mergeProps e.props p } else e)
  else
    es ++ [⟨k.1, k.2.1, k.2.2.1, k.2.2.2.1, k.2.2.2.2, mergeProps [] p⟩]

/-- The per-outgoing-relationship query of the merge pass
(graph_enrichment.py:146-157): MATCH canonical (`:Person`) and the target by
bare id, then MERGE the typed edge and `SET r += $props`. -/
def createRelToTarget (h : Graph) (canonId : Val)
    (row : String × PropMap × Option Val) : Graph :=
  match row.2.2 with
  | none => h
  | some tid =>
    if (findNode h ("Person", canonId)).isSome then
      match findNodeByIdAny h tid with
      | some tn =>
        { h with edges :=
            mergeEdgeAddProps ("Person", canonId, tn.label, tid, row.1) row.2.1 h.edges }
      | none => h
    else h

/-- The per-incoming-relationship query (graph_enrichment.py:173-184). -/
def createRelFromSource (h : Graph) (canonId : Val)
    (row : String × PropMap × Option Val) : Graph :=
  match row.2.2 with
  | none => h
  | some sid =>
    if (findNode h ("Person", canonId)).isSome then
      match findNodeByIdAny h sid with
      | some sn =>
        { h with edges :=
            mergeEdgeAddProps (sn.label, sid, "Person", canonId, row.1) row.2.1 h.edges }
      | none => h
    else h

/-- One `(canonical, duplicate)` merge (steps 2a–2d of
`merge_duplicate_persons`, graph_enrichment.py:80-192):
2a  set `pep = true` and `person_name = COALESCE(canonical's, duplicate's)`
    on the canonical node — these are the only properties the source copies;
2b  re-create every outgoing relationship of the duplicate on the canonical
    node with `SET r += props`;
2c  likewise for incoming relationships;
2d  `DETACH DELETE` the duplicate. -/
def mergePair (g : Graph) (canonId dupId : Val) : Graph :=
  let g1 :=
    if (findNode g ("Person", canonId)).isSome && (findNode g ("Person", dupId)).isSome then
      let dupName := (findNode g ("Person", dupId)).bind
        (fun nd => getProp nd.props "person_name")
      { g with nodes := updFirstNode ("Person", canonId) (fun p =>
          let p1 := setProp "pep" (.bool true) p
          match (getProp p1 "person_name").orElse (fun _ => dupName) with
          | some v => setProp "person_name" v p1
          | none => delProp "person_name" p1) g.nodes }
    else g
  let outs := g1.edges.filterMap (fun e =>
    if e.fromLabel == "Person" && e.fromId == dupId then
      (findNode g1 (e.toLabel, e.toId)).map
        (fun tn => (e.relType, e.props, getProp tn.props "id"))
    else none)
  let g2 := outs.foldl (fun h row => createRelToTarget h canonId row) g1
  let ins := g2.edges.filterMap (fun e =>
    if e.toLabel == "Person" && e.toId == dupId then
      (findNode g2 (e.fromLabel, e.fromId)).map
        (fun sn => (e.relType, e.props, getProp sn.props "id"))
    else none)
  let g3 := ins.foldl (fun h row => createRelFromSource h canonId row) g2
  { nodes := g3.nodes.filter (fun nd =>
      !(nd.label == "Person" && getProp nd.props "id" == some dupId))
    edges := g3.edges.filter (fun e =>
      !((e.fromLabel == "Person" && e.fromId == dupId) ||
        (e.toLabel == "Person" && e.toId == dupId))) }

/-- `merge_duplicate_persons` (graph_enrichment.py:34-197): find all pairs
once, then merge them in order. -/
def merge_duplicate_persons (g : Graph) : Graph :=
  (findDuplicatePairs g).foldl (fun h pr => mergePair h pr.1 pr.2) g

/-! ## Basic lemmas -/

/-- Left-biased choice on options (`COALESCE`). -/
def optOr {α : Type} (a b : Option α) : Option α :=
  match a with
  | some x => some x
  | none => b

@[simp] theorem optOr_none {α : Type} (b : Option α) : optOr none b = b := rfl

@[simp] theorem optOr_some {α : Type} (x : α) (b : Option α) :
    optOr (some x) b = some x := rfl

@[simp] theorem optOr_none_right {α : Type} (a : Option α) : optOr a none = a := by
  cases a <;> rfl

theorem optOr_assoc {α : Type} (a b c : Option α) :
    optOr (optOr a b) c = optOr a (optOr b c) := by
  cases a <;> simp

theorem optOr_self_absorb {α : Type} (a b : Option α) :
    optOr a (optOr a b) = optOr a b := by
  cases a <;> simp

@[simp] theorem getProp_nil (k : String) : getProp [] k = none := rfl

theorem getProp_cons (p : String × Val) (m : PropMap) (k : String) :
    getProp (p :: m) k = if p.1 = k then some p.2 else getProp m k := by
  by_cases h : p.1 = k
  · simp [getProp, List.find?_cons, h]
  · have hb : (p.1 == k) = false := by simpa using h
    simp [getProp, List.find?_cons, hb, h]

theorem getProp_setProp_self (k : String) (v : Val) (m : PropMap) :
    getProp (setProp k v m) k = some v := by
  induction m with
  | nil => simp [setProp, getProp_cons]
  | cons p rest ih =>
    by_cases h : p.1 = k
    · simp [setProp, h, getProp_cons]
    · simpa [setProp, h, getProp_cons] using ih

theorem getProp_setProp_other (k k' : String) (v : Val) (m : PropMap)
    (h : k' ≠ k) : getProp (setProp k v m) k' = getProp m k' := by
  have hk : ¬ k = k' := fun hc => h hc.symm
  induction m with
  | nil => simp [setProp, getProp_cons, hk]
  | cons p rest ih =>
    by_cases hp : p.1 = k
    · have hp' : ¬ p.1 = k' := by rw [hp]; exact hk
      simp [setProp, hp, getProp_cons, hk, hp']
    · by_cases hp' : p.1 = k'
      · simp [setProp, hp, getProp_cons, hp', h]
      · simp [setProp, hp, getProp_cons, hp', ih]

/-- Bridge between the Bool node-match predicate and its propositional form. -/
theorem ndMatch_iff (nd : GNode) (k : NodeKey) :
    (nd.label == k.1 && getProp nd.props "id" == some k.2) = true ↔
      (nd.label = k.1 ∧ getProp nd.props "id" = some k.2) := by
  simp

theorem findNodeL_cons (nd : GNode) (ns : List GNode) (k : NodeKey) :
    findNodeL (nd :: ns) k =
      if nd.label = k.1 ∧ getProp nd.props "id" = some k.2 then some nd
      else findNodeL ns k := by
  cases hbb : (nd.label == k.1 && getProp nd.props "id" == some k.2) with
  | true =>
    have h := (ndMatch_iff nd k).mp hbb
    simp [findNodeL, List.find?_cons, hbb, h]
  | false =>
    have h : ¬ (nd.label = k.1 ∧ getProp nd.props "id" = some k.2) := by
      intro hc
      rw [(ndMatch_iff nd k).mpr hc] at hbb
      cases hbb
    simp [findNodeL, List.find?_cons, hbb, h]

/-! ## Lookup lemmas for the node-batch statement semantics -/

/-- A node matches at most one identity. -/
theorem ndKey_unique {nd : GNode} {k k' : NodeKey}
    (h : nd.label = k.1 ∧ getProp nd.props "id" = some k.2)
    (h' : nd.label = k'.1 ∧ getProp nd.props "id" = some k'.2) : k = k' := by
  obtain ⟨h1, h2⟩ := h
  obtain ⟨h1', h2'⟩ := h'
  have hl : k.1 = k'.1 := by rw [← h1, h1']
  have hv : some k.2 = some k'.2 := by rw [← h2, h2']
  exact Prod.ext hl (Option.some_injective _ hv)

theorem getPropsL_upsertNodeK_self (k : NodeKey) (item : PropMap)
    (ns : List GNode) (hid : getProp item "id" = some k.2) :
    getPropsL (upsertNodeK k item ns) k = some item := by
  induction ns with
  | nil => simp [upsertNodeK, getPropsL, findNodeL_cons, hid]
  | cons nd rest ih =>
    by_cases h : nd.label = k.1 ∧ getProp nd.props "id" = some k.2
    · simp [upsertNodeK, h, getPropsL, findNodeL_cons, hid]
    · simpa [upsertNodeK, h, getPropsL, findNodeL_cons] using ih

theorem getPropsL_upsertNodeK_other (k k' : NodeKey) (item : PropMap)
    (ns : List GNode) (hid : getProp item "id" = some k.2) (hne : k' ≠ k) :
    getPropsL (upsertNodeK k item ns) k' = getPropsL ns k' := by
  have hnew : ¬ ((⟨k.1, item⟩ : GNode).label = k'.1 ∧
      getProp (⟨k.1, item⟩ : GNode).props "id" = some k'.2) := by
    rintro ⟨h1, h2⟩
    exact hne (ndKey_unique ⟨h1, h2⟩ ⟨rfl, hid⟩)
  induction ns with
  | nil =>
    simp only [upsertNodeK, getPropsL, findNodeL_cons, if_neg hnew]
  | cons nd rest ih =>
    by_cases h : nd.label = k.1 ∧ getProp nd.props "id" = some k.2
    · have hnd : ¬ (nd.label = k'.1 ∧ getProp nd.props "id" = some k'.2) := by
        intro hc
        exact hne (ndKey_unique hc h)
      simp only [upsertNodeK, if_pos h, getPropsL, findNodeL_cons]
      rw [if_neg hnew, if_neg hnd]
    · by_cases h' : nd.label = k'.1 ∧ getProp nd.props "id" = some k'.2
      · simp only [upsertNodeK, if_neg h, getPropsL, findNodeL_cons, if_pos h']
      · simp only [upsertNodeK, if_neg h, getPropsL, findNodeL_cons, if_neg h']
        exact ih

theorem getPropsL_upsertNodeItem (l : String) (item : PropMap)
    (ns : List GNode) (k1 : String) (k2 : Val) :
    getPropsL (upsertNodeItem l item ns) (k1, k2) =
      if l = k1 ∧ getProp item "id" = some k2 then some item
      else getPropsL ns (k1, k2) := by
  unfold upsertNodeItem
  cases hid : getProp item "id" with
  | none => simp
  | some v =>
    by_cases hcond : l = k1 ∧ v = k2
    · obtain ⟨h1, h2⟩ := hcond
      subst h1; subst h2
      simp [getPropsL_upsertNodeK_self (l, v) item ns hid, hid]
    · have hne : (k1, k2) ≠ (l, v) := by
        intro hc
        injection hc with hc1 hc2
        exact hcond ⟨hc1.symm, hc2.symm⟩
      rw [getPropsL_upsertNodeK_other (l, v) (k1, k2) item ns hid hne]
      simp [hcond]

/-- The last item of a batch carrying a given id (the winning `SET n = item`
row for that identity). -/
def lastWithId : List PropMap → Val → Option PropMap
  | [], _ => none
  | it :: rest, v =>
    optOr (lastWithId rest v) (if getProp it "id" = some v then some it else none)

theorem getPropsL_execNodeBatch (l : String) (b : List PropMap)
    (ns : List GNode) (k1 : String) (k2 : Val) :
    getPropsL (execNodeBatch l b ns) (k1, k2) =
      optOr (if l = k1 then lastWithId b k2 else none) (getPropsL ns (k1, k2)) := by
  induction b generalizing ns with
  | nil => by_cases h : l = k1 <;> simp [execNodeBatch, h, lastWithId]
  | cons it rest ih =>
    have hstep : execNodeBatch l (it :: rest) ns =
        execNodeBatch l rest (upsertNodeItem l it ns) := rfl
    rw [hstep, ih, getPropsL_upsertNodeItem]
    by_cases hl : l = k1
    · subst hl
      simp only [lastWithId, if_pos rfl, true_and]
      by_cases hit : getProp it "id" = some k2
      · simp only [hit, if_pos rfl]
        cases lastWithId rest k2 <;> simp [optOr]
      · simp [hit]
    · simp [hl]

/-! ## C4 — node upsert replaces the whole property set -/

/-- C4: for every node identity `(label, v)` and every executed node-upsert
statement, the resulting property set of that node equals exactly the
supplied property map (the last batch item carrying that id): `SET n = item`
replaces wholesale, so fields previously set on the node but omitted from
the new map are erased.  (`generate_batch_merge_nodes_query` passes the batch
through unchanged as `$batch`.) -/
theorem node_upsert_wholesale (label : String) (batch : List PropMap)
    (g : Graph) (v : Val) (item : PropMap)
    (hlast : lastWithId batch v = some item) :
    (generate_batch_merge_nodes_query label "id" batch).2 = batch ∧
    getNodeProps (execStmt (Stmt.nodes label batch) g) (label, v) = some item := by
  refine ⟨rfl, ?_⟩
  show getPropsL (execNodeBatch label batch g.nodes) (label, v) = some item
  rw [getPropsL_execNodeBatch]
  simp [hlast]

/-- Witness for C4: a node that previously carried `old = 5` is upserted with
a map without `old`; afterwards its property set is exactly the new map and
`old` is gone. -/
theorem node_upsert_wholesale_witness :
    lastWithId [[("id", Val.str "1"), ("new", Val.int 7)]] (Val.str "1") =
      some [("id", Val.str "1"), ("new", Val.int 7)] ∧
    ((generate_batch_merge_nodes_query "Person" "id"
        [[("id", Val.str "1"), ("new", Val.int 7)]]).2 =
          [[("id", Val.str "1"), ("new", Val.int 7)]] ∧
      getNodeProps (execStmt (Stmt.nodes "Person" [[("id", Val.str "1"), ("new", Val.int 7)]])
          ⟨[⟨"Person", [("id", Val.str "1"), ("old", Val.int 5)]⟩], []⟩)
          ("Person", Val.str "1") =
        some [("id", Val.str "1"), ("new", Val.int 7)]) ∧
    getProp [("id", Val.str "1"), ("new", Val.int 7)] "old" = none :=
  ⟨rfl, node_upsert_wholesale "Person" _ _ _ _ rfl, rfl⟩

/-! ## C10 — the batch relationship statement uses the first item's labels -/

/-- Every group built by the grouping loop is nonempty and homogeneous in
`rel_type`. -/
theorem addToGroups_good (t : String) (x : RelItem)
    (gs : List (String × List RelItem))
    (hgs : ∀ p ∈ gs, p.2 ≠ [] ∧ ∀ r ∈ p.2, r.rel_type = p.1)
    (hx : x.rel_type = t) :
    ∀ p ∈ addToGroups t x gs, p.2 ≠ [] ∧ ∀ r ∈ p.2, r.rel_type = p.1 := by
  induction gs with
  | nil =>
    intro p hp
    simp only [addToGroups] at hp
    have hp' := List.mem_singleton.mp hp
    subst hp'
    refine ⟨by simp, ?_⟩
    intro r hr
    rw [List.mem_singleton.mp hr]
    exact hx
  | cons q rest ih =>
    obtain ⟨t', rs⟩ := q
    intro p hp
    by_cases h : t' = t
    · simp only [addToGroups, if_pos h] at hp
      rcases List.mem_cons.mp hp with hph | hp'
      · subst hph
        refine ⟨by simp, ?_⟩
        intro r hr
        show r.rel_type = t'
        rcases List.mem_append.mp hr with hr | hr
        · exact (hgs (t', rs) (List.mem_cons_self _ _)).2 r hr
        · rw [List.mem_singleton.mp hr, hx, h]
      · exact hgs p (List.mem_cons_of_mem _ hp')
    · simp only [addToGroups, if_neg h] at hp
      rcases List.mem_cons.mp hp with hph | hp'
      · subst hph
        exact hgs (t', rs) (List.mem_cons_self _ _)
      · exact ih (fun p hp => hgs p (List.mem_cons_of_mem _ hp)) p hp'

theorem groupByType_good (rels : List RelItem) :
    ∀ p ∈ groupByType rels, p.2 ≠ [] ∧ ∀ r ∈ p.2, r.rel_type = p.1 := by
  have main : ∀ (l : List RelItem) (gs : List (String × List RelItem)),
      (∀ p ∈ gs, p.2 ≠ [] ∧ ∀ r ∈ p.2, r.rel_type = p.1) →
      ∀ p ∈ l.foldl (fun acc r => addToGroups r.rel_type r acc) gs,
        p.2 ≠ [] ∧ ∀ r ∈ p.2, r.rel_type = p.1 := by
    intro l
    induction l with
    | nil => intro gs hgs; exact hgs
    | cons r rest ih =>
      intro gs hgs
      exact ih (addToGroups r.rel_type r gs) (addToGroups_good r.rel_type r gs hgs rfl)
  exact main rels [] (by simp)

/-- C10: every statement emitted by `generate_batch_merge_relationships_query`
matches endpoints using only the `from_label`/`to_label` of its group's first
relationship — the emitted text is `relGroupCypher` of exactly those two
labels (and the shared type), so the endpoint labels of the remaining items
in the group play no part in the statement. -/
theorem batch_rel_stmt_uses_first_labels (relationships : List RelItem)
    (q : String) (ps : List RelItem)
    (hmem : (q, ps) ∈ generate_batch_merge_relationships_query relationships) :
    ∃ h rest, ps = h :: rest ∧
      q = relGroupCypher h.rel_type h.from_label h.to_label ∧
      ∀ r ∈ ps, r.rel_type = h.rel_type := by
  unfold generate_batch_merge_relationships_query at hmem
  rw [List.mem_map] at hmem
  obtain ⟨grp, hgrp, heq⟩ := hmem
  obtain ⟨t, rs⟩ := grp
  obtain ⟨hne, hall⟩ := groupByType_good relationships (t, rs) hgrp
  cases rs with
  | nil => exact absurd rfl hne
  | cons h rest =>
    simp only at heq
    injection heq with hq hps
    refine ⟨h, rest, hps.symm, ?_, ?_⟩
    · rw [← hq, hall h (by simp)]
    · intro r hr
      rw [← hps] at hr
      rw [hall r hr, hall h (by simp)]

/-- Witness for C10: two same-type relationships with entirely different
endpoint labels; the emitted statement is built from the first item's labels
(`Alpha`/`Beta`) — the second item's labels (`Gamma`/`Delta`) differ and are
not part of the statement. -/
theorem batch_rel_stmt_uses_first_labels_witness :
    ((relGroupCypher "R" "Alpha" "Beta",
        [(⟨"Alpha", .str "1", "Beta", .str "2", "R", []⟩ : RelItem),
          ⟨"Gamma", .str "3", "Delta", .str "4", "R", []⟩]) ∈
      generate_batch_merge_relationships_query
        [⟨"Alpha", .str "1", "Beta", .str "2", "R", []⟩,
          ⟨"Gamma", .str "3", "Delta", .str "4", "R", []⟩]) ∧
    (∃ h rest,
      [(⟨"Alpha", .str "1", "Beta", .str "2", "R", []⟩ : RelItem),
          ⟨"Gamma", .str "3", "Delta", .str "4", "R", []⟩] = h :: rest ∧
      relGroupCypher "R" "Alpha" "Beta" =
        relGroupCypher h.rel_type h.from_label h.to_label ∧
      ∀ r ∈ [(⟨"Alpha", .str "1", "Beta", .str "2", "R", []⟩ : RelItem),
          ⟨"Gamma", .str "3", "Delta", .str "4", "R", []⟩], r.rel_type = h.rel_type) ∧
    ("Gamma" ≠ "Alpha" ∧ "Delta" ≠ "Beta") := by
  have hmem : ((relGroupCypher "R" "Alpha" "Beta",
      [(⟨"Alpha", .str "1", "Beta", .str "2", "R", []⟩ : RelItem),
        ⟨"Gamma", .str "3", "Delta", .str "4", "R", []⟩]) ∈
      generate_batch_merge_relationships_query
        [⟨"Alpha", .str "1", "Beta", .str "2", "R", []⟩,
          ⟨"Gamma", .str "3", "Delta", .str "4", "R", []⟩]) := by decide
  exact ⟨hmem, batch_rel_stmt_uses_first_labels _ _ _ hmem, by decide⟩

/-! ## C6 — relationship property upsert semantics -/

theorem edgeKey_set_props (e : GEdge) (p : PropMap) :
    edgeKey { e with props := p } = edgeKey e := rfl

theorem hasEdge_cons (e : GEdge) (es : List GEdge) (k : EdgeKey) :
    hasEdge (e :: es) k = (edgeKey e == k || hasEdge es k) := by
  simp [hasEdge, List.any_cons]

theorem getEdgeProps_cons (e : GEdge) (es : List GEdge) (k : EdgeKey) :
    getEdgeProps (e :: es) k =
      if edgeKey e == k then some e.props else getEdgeProps es k := by
  cases hbb : (edgeKey e == k) <;> simp [getEdgeProps, List.find?_cons, hbb]

/-- `SET r = $props` on every matched edge yields exactly the supplied map. -/
theorem getEdgeProps_setAll (es : List GEdge) (k : EdgeKey) (p : PropMap)
    (hk : hasEdge es k = true) :
    getEdgeProps (es.map (fun e => if edgeKey e == k then { e with props := p } else e)) k =
      some p := by
  induction es with
  | nil => simp [hasEdge] at hk
  | cons e rest ih =>
    rw [List.map_cons]
    cases h : (edgeKey e == k) with
    | true => simp [getEdgeProps_cons, edgeKey_set_props, h]
    | false =>
      have hk' : hasEdge rest k = true := by
        rw [hasEdge_cons, h] at hk
        simpa using hk
      simp only [h, Bool.false_eq_true, if_false]
      rw [getEdgeProps_cons, h, if_neg (by simp)]
      exact ih hk'

/-- The plain `MERGE` of an edge never changes an existing edge's
properties. -/
theorem getEdgeProps_mergeEdgeK (k k' : EdgeKey) (es : List GEdge)
    (h : (getEdgeProps es k).isSome = true) :
    getEdgeProps (mergeEdgeK k' es) k = getEdgeProps es k := by
  unfold mergeEdgeK
  by_cases hk : hasEdge es k' = true
  · simp [hk]
  · simp only [hk, if_neg, Bool.not_eq_true, if_false]
    unfold getEdgeProps at h ⊢
    cases hfind : es.find? (fun e => edgeKey e == k) with
    | none => rw [hfind] at h; simp at h
    | some e =>
      rw [List.find?_append, hfind]
      simp

/-- Executing a whole relationship-group statement leaves the properties of
every pre-existing edge untouched. -/
theorem relBatch_preserves_edge_props (t fl tl : String) (batch : List RelItem)
    (ns : List GNode) (es : List GEdge) (k : EdgeKey)
    (h : (getEdgeProps es k).isSome = true) :
    getEdgeProps (batch.foldl (relBatchRow t fl tl ns) es) k = getEdgeProps es k := by
  induction batch generalizing es with
  | nil => rfl
  | cons it rest ih =>
    rw [List.foldl_cons]
    by_cases hc : ((findNodeL ns (fl, it.from_id)).isSome &&
        (findNodeL ns (tl, it.to_id)).isSome) = true
    · have hrow : relBatchRow t fl tl ns es it =
          mergeEdgeK (fl, it.from_id, tl, it.to_id, t) es := by
        unfold relBatchRow
        rw [if_pos hc]
      rw [hrow]
      have hpres := getEdgeProps_mergeEdgeK k (fl, it.from_id, tl, it.to_id, t) es h
      have hsome : (getEdgeProps (mergeEdgeK (fl, it.from_id, tl, it.to_id, t) es) k).isSome
          = true := by rw [hpres]; exact h
      rw [ih _ hsome, hpres]
    · have hrow : relBatchRow t fl tl ns es it = es := by
        unfold relBatchRow
        rw [if_neg hc]
      rw [hrow]
      exact ih es h

/-- Counterexample to C6: the claim says relationship properties are merged
additively (existing keys kept).  The statement built by
`generate_merge_relationship_query` says `SET r = $props`; executing it on an
edge carrying `x = 1` with new properties `y = 2` leaves the edge with
exactly `y = 2` — the `x` property is dropped, which additive merge would
have kept. -/
theorem rel_props_not_additive_cex :
    (generate_merge_relationship_query "A" (.str "1") "B" (.str "2") "R"
        (some [("y", Val.int 2)])).1 =
      "MATCH (from:A \x7bid: $from_id\x7d)\n    MATCH (to:B \x7bid: $to_id\x7d)\n    MERGE (from)-[r:R]->(to)\n    SET r = $props\nRETURN r" ∧
    getEdgeProps (execMergeRelationship "A" (.str "1") "B" (.str "2") "R"
        (some [("y", Val.int 2)])
        ⟨[⟨"A", [("id", .str "1")]⟩, ⟨"B", [("id", .str "2")]⟩],
          [⟨"A", .str "1", "B", .str "2", "R", [("x", Val.int 1)]⟩]⟩).edges
      ("A", .str "1", "B", .str "2", "R") = some [("y", Val.int 2)] ∧
    some [("y", Val.int 2)] ≠
      some (mergeProps [("x", Val.int 1)] [("y", Val.int 2)]) :=
  ⟨rfl, rfl, by decide⟩

/-- C6 amended: `generate_merge_relationship_query` sets relationship
properties wholesale (`SET r = $props`) when the properties argument is
truthy — existing keys are NOT kept; `generate_batch_merge_relationships_query`
ignores relationship properties entirely: its parameters are the grouped
items passed through unchanged (no empty-property-map defaulting), and its
statements leave every existing edge's property set untouched. -/
theorem rel_props_semantics_amended :
    (∀ (fl : String) (fid : Val) (tl : String) (tid : Val) (rt : String)
        (p : PropMap) (g : Graph),
      p ≠ [] →
      (findNode g (fl, fid)).isSome = true →
      (findNode g (tl, tid)).isSome = true →
      hasEdge g.edges (fl, fid, tl, tid, rt) = true →
      getEdgeProps (execMergeRelationship fl fid tl tid rt (some p) g).edges
        (fl, fid, tl, tid, rt) = some p) ∧
    (∀ rels : List RelItem,
      (generate_batch_merge_relationships_query rels).map Prod.snd =
        (groupByType rels).map Prod.snd) ∧
    (∀ (t fl tl : String) (batch : List RelItem) (g : Graph) (k : EdgeKey),
      (getEdgeProps g.edges k).isSome = true →
      getEdgeProps (execStmt (Stmt.rels t fl tl batch) g).edges k =
        getEdgeProps g.edges k) := by
  refine ⟨?_, ?_, ?_⟩
  · intro fl fid tl tid rt p g hp h1 h2 hk
    have htr : pyTruthyOpt (some p) = true := by
      simp [pyTruthyOpt, hp]
    unfold execMergeRelationship
    rw [show findNode g (fl, fid) = findNodeL g.nodes (fl, fid) from rfl] at h1
    rw [show findNode g (tl, tid) = findNodeL g.nodes (tl, tid) from rfl] at h2
    simp only [findNode] at *
    rw [h1, h2]
    simp only [Bool.and_self, if_pos rfl, htr, if_true, hk]
    exact getEdgeProps_setAll g.edges _ p hk
  · intro rels
    unfold generate_batch_merge_relationships_query
    rw [List.map_map]
    apply List.map_congr_left
    intro grp _
    obtain ⟨t, rs⟩ := grp
    cases rs <;> rfl
  · intro t fl tl batch g k h
    exact relBatch_preserves_edge_props t fl tl batch g.nodes g.edges k h

/-- Witness for the amended C6. -/
theorem rel_props_semantics_amended_witness :
    ([("y", Val.int 2)] ≠ ([] : PropMap)) ∧
    (findNode ⟨[⟨"A", [("id", .str "1")]⟩, ⟨"B", [("id", .str "2")]⟩],
        [⟨"A", .str "1", "B", .str "2", "R", [("x", Val.int 1)]⟩]⟩
      ("A", .str "1")).isSome = true ∧
    getEdgeProps (execMergeRelationship "A" (.str "1") "B" (.str "2") "R"
        (some [("y", Val.int 2)])
        ⟨[⟨"A", [("id", .str "1")]⟩, ⟨"B", [("id", .str "2")]⟩],
          [⟨"A", .str "1", "B", .str "2", "R", [("x", Val.int 1)]⟩]⟩).edges
      ("A", .str "1", "B", .str "2", "R") = some [("y", Val.int 2)] ∧
    getEdgeProps (execStmt (Stmt.rels "R" "A" "B"
          [⟨"A", .str "1", "B", .str "2", "R", [("z", Val.int 9)]⟩])
        ⟨[⟨"A", [("id", .str "1")]⟩, ⟨"B", [("id", .str "2")]⟩],
          [⟨"A", .str "1", "B", .str "2", "R", [("x", Val.int 1)]⟩]⟩).edges
      ("A", .str "1", "B", .str "2", "R") =
      some [("x", Val.int 1)] := by
  refine ⟨by decide, by decide, ?_, ?_⟩
  · exact rel_props_semantics_amended.1 "A" (.str "1") "B" (.str "2") "R"
      [("y", Val.int 2)] _ (by decide) (by decide) (by decide) (by decide)
  · have := rel_props_semantics_amended.2.2 "R" "A" "B"
      [⟨"A", .str "1", "B", .str "2", "R", [("z", Val.int 9)]⟩]
      ⟨[⟨"A", [("id", .str "1")]⟩, ⟨"B", [("id", .str "2")]⟩],
        [⟨"A", .str "1", "B", .str "2", "R", [("x", Val.int 1)]⟩]⟩
      ("A", .str "1", "B", .str "2", "R") (by decide)
    rw [this]
    decide

/-! ## C5 — accumulator deduplication is first-wins -/

/-- Recursive description of the dedup loop (same branching as
`dedupStep`). -/
def dedupSpec (seen : List Val) : List PropMap → List PropMap
  | [] => []
  | it :: rest =>
    match getProp it "id" with
    | some v =>
      if pyTruthy v && !(seen.contains v) then it :: dedupSpec (seen ++ [v]) rest
      else dedupSpec seen rest
    | none => dedupSpec seen rest

theorem dedup_cond_true {v : Val} {seen : List Val}
    (hc : (pyTruthy v && !(seen.contains v)) = true) :
    pyTruthy v = true ∧ ¬ v ∈ seen := by
  have h := (Bool.and_eq_true _ _).mp hc
  exact ⟨h.1, by simpa using h.2⟩

theorem dedup_cond_false {v : Val} {seen : List Val}
    (hc : ¬ (pyTruthy v && !(seen.contains v)) = true) :
    pyTruthy v = false ∨ v ∈ seen := by
  cases hpv : pyTruthy v with
  | false => exact Or.inl rfl
  | true =>
    right
    by_contra hns
    exact hc (by simp [hpv, hns])

theorem dedupSpec_cons_kept (seen : List Val) (it : PropMap) (rest : List PropMap)
    (v : Val) (hid : getProp it "id" = some v) (hp : pyTruthy v = true)
    (hn : ¬ v ∈ seen) :
    dedupSpec seen (it :: rest) = it :: dedupSpec (seen ++ [v]) rest := by
  simp [dedupSpec, hid, hp, hn]

theorem dedupSpec_cons_dropped (seen : List Val) (it : PropMap) (rest : List PropMap)
    (v : Val) (hid : getProp it "id" = some v)
    (h : pyTruthy v = false ∨ v ∈ seen) :
    dedupSpec seen (it :: rest) = dedupSpec seen rest := by
  rcases h with hp | hp <;> simp [dedupSpec, hid, hp]

theorem dedupSpec_cons_noid (seen : List Val) (it : PropMap) (rest : List PropMap)
    (hid : getProp it "id" = none) :
    dedupSpec seen (it :: rest) = dedupSpec seen rest := by
  simp [dedupSpec, hid]

theorem dedup_fold_eq (items : List PropMap) (seen : List Val) (uniq : List PropMap) :
    (items.foldl dedupStep (seen, uniq)).2 = uniq ++ dedupSpec seen items := by
  induction items generalizing seen uniq with
  | nil => simp [dedupSpec]
  | cons it rest ih =>
    rw [List.foldl_cons]
    cases hid : getProp it "id" with
    | none =>
      have h1 : dedupStep (seen, uniq) it = (seen, uniq) := by
        simp [dedupStep, hid]
      rw [h1, dedupSpec_cons_noid seen it rest hid]
      exact ih seen uniq
    | some v =>
      by_cases hc : (pyTruthy v && !(seen.contains v)) = true
      · obtain ⟨hp, hn⟩ := dedup_cond_true hc
        have h1 : dedupStep (seen, uniq) it = (seen ++ [v], uniq ++ [it]) := by
          simp [dedupStep, hid, hp, hn]
        rw [h1, dedupSpec_cons_kept seen it rest v hid hp hn, ih]
        simp
      · have h1 : dedupStep (seen, uniq) it = (seen, uniq) := by
          rcases dedup_cond_false hc with hp | hp <;> simp [dedupStep, hid, hp]
        rw [h1, dedupSpec_cons_dropped seen it rest v hid (dedup_cond_false hc)]
        exact ih seen uniq

theorem dedupById_fst (items : List PropMap) :
    (dedupById items).1 = dedupSpec [] items := by
  unfold dedupById
  simpa using dedup_fold_eq items [] []

/-- Once an id is in `seen`, no later item carrying it survives. -/
theorem dedupSpec_filter_seen (items : List PropMap) (seen : List Val) (v : Val)
    (hs : v ∈ seen) :
    (dedupSpec seen items).filter (fun i => getProp i "id" == some v) = [] := by
  induction items generalizing seen with
  | nil => rfl
  | cons it rest ih =>
    cases hid : getProp it "id" with
    | none =>
      rw [dedupSpec_cons_noid seen it rest hid]
      exact ih seen hs
    | some w =>
      by_cases hc : (pyTruthy w && !(seen.contains w)) = true
      · obtain ⟨hp, hn⟩ := dedup_cond_true hc
        have hw : w ≠ v := by
          intro hwv
          subst hwv
          exact hn hs
        rw [dedupSpec_cons_kept seen it rest w hid hp hn, List.filter_cons]
        have hbv : (getProp it "id" == some v) = false := by
          rw [hid]
          simp [hw]
        rw [hbv]
        simp only [Bool.false_eq_true, if_false]
        exact ih (seen ++ [w]) (List.mem_append_left _ hs)
      · rw [dedupSpec_cons_dropped seen it rest w hid (dedup_cond_false hc)]
        exact ih seen hs

/-- First-wins: the first item carrying a fresh truthy id survives, and it is
the only survivor with that id. -/
theorem dedupSpec_filter_first (items : List PropMap) (seen : List Val) (v : Val)
    (hv : pyTruthy v = true) (hs : ¬ v ∈ seen) (it : PropMap)
    (hfind : items.find? (fun i => getProp i "id" == some v) = some it) :
    (dedupSpec seen items).filter (fun i => getProp i "id" == some v) = [it] := by
  induction items generalizing seen with
  | nil => simp at hfind
  | cons it0 rest ih =>
    cases hid : getProp it0 "id" with
    | none =>
      have hb : (getProp it0 "id" == some v) = false := by rw [hid]; rfl
      simp only [List.find?_cons, hb] at hfind
      rw [dedupSpec_cons_noid seen it0 rest hid]
      exact ih seen hs hfind
    | some w =>
      by_cases hw : w = v
      · subst hw
        have hb : (getProp it0 "id" == some w) = true := by rw [hid]; simp
        simp only [List.find?_cons, hb] at hfind
        have hit : it0 = it := by injection hfind
        subst hit
        rw [dedupSpec_cons_kept seen it0 rest w hid hv hs, List.filter_cons, hb]
        simp only [if_true]
        rw [dedupSpec_filter_seen rest (seen ++ [w]) w (List.mem_append_right _ (by simp))]
      · have hb : (getProp it0 "id" == some v) = false := by
          rw [hid]
          simp [hw]
        simp only [List.find?_cons, hb] at hfind
        by_cases hc : (pyTruthy w && !(seen.contains w)) = true
        · obtain ⟨hp, hn⟩ := dedup_cond_true hc
          rw [dedupSpec_cons_kept seen it0 rest w hid hp hn, List.filter_cons, hb]
          simp only [Bool.false_eq_true, if_false]
          have hs' : ¬ v ∈ seen ++ [w] := by
            intro hmem
            rcases List.mem_append.mp hmem with hmem | hmem
            · exact hs hmem
            · simp at hmem
              exact hw hmem.symm
          exact ih (seen ++ [w]) hs' hfind
        · rw [dedupSpec_cons_dropped seen it0 rest w hid (dedup_cond_false hc)]
          exact ih seen hs hfind

/-- The surviving items carry pairwise distinct ids, none of them in
`seen`. -/
theorem dedupSpec_ids_nodup (items : List PropMap) (seen : List Val) :
    ((dedupSpec seen items).filterMap (fun i => getProp i "id")).Nodup ∧
    ∀ v ∈ (dedupSpec seen items).filterMap (fun i => getProp i "id"), ¬ v ∈ seen := by
  induction items generalizing seen with
  | nil => exact ⟨List.nodup_nil, by simp [dedupSpec]⟩
  | cons it rest ih =>
    cases hid : getProp it "id" with
    | none =>
      rw [dedupSpec_cons_noid seen it rest hid]
      exact ih seen
    | some w =>
      by_cases hc : (pyTruthy w && !(seen.contains w)) = true
      · obtain ⟨hp, hn⟩ := dedup_cond_true hc
        rw [dedupSpec_cons_kept seen it rest w hid hp hn, List.filterMap_cons, hid]
        obtain ⟨hnd, hdisj⟩ := ih (seen ++ [w])
        constructor
        · refine List.Nodup.cons ?_ hnd
          intro hmem
          exact hdisj w hmem (List.mem_append_right _ (by simp))
        · intro v hv
          rcases List.mem_cons.mp hv with rfl | hv'
          · exact hn
          · intro hvseen
            exact hdisj v hv' (List.mem_append_left _ hvseen)
      · rw [dedupSpec_cons_dropped seen it rest w hid (dedup_cond_false hc)]
        exact ih seen

/-- C5: within one flush window and entity type, when several node items
share the same (truthy) id, exactly one survives the dedup pass of
`_insert_batch_nodes` — the first one supplied in input order; the surviving
items carry pairwise-distinct ids, and `duplicates_removed` records the
number of dropped items. -/
theorem dedup_first_wins (items : List PropMap) (v : Val)
    (hv : pyTruthy v = true) (it : PropMap)
    (hfind : items.find? (fun i => getProp i "id" == some v) = some it) :
    (dedupById items).1.filter (fun i => getProp i "id" == some v) = [it] ∧
    ((dedupById items).1.filterMap (fun i => getProp i "id")).Nodup ∧
    (dedupById items).2 = items.length - (dedupById items).1.length := by
  refine ⟨?_, ?_, rfl⟩
  · rw [dedupById_fst]
    exact dedupSpec_filter_first items [] v hv (by simp) it hfind
  · rw [dedupById_fst]
    exact (dedupSpec_ids_nodup items []).1

/-- Witness for C5: two items share id "1" with different properties; the
first survives, the second is dropped and counted. -/
theorem dedup_first_wins_witness :
    pyTruthy (Val.str "1") = true ∧
    ([[("id", Val.str "1"), ("a", Val.int 1)],
        [("id", Val.str "1"), ("b", Val.int 2)],
        [("id", Val.str "2")]].find?
      (fun i => getProp i "id" == some (Val.str "1")) =
        some [("id", Val.str "1"), ("a", Val.int 1)]) ∧
    ((dedupById [[("id", Val.str "1"), ("a", Val.int 1)],
        [("id", Val.str "1"), ("b", Val.int 2)],
        [("id", Val.str "2")]]).1.filter
      (fun i => getProp i "id" == some (Val.str "1")) =
        [[("id", Val.str "1"), ("a", Val.int 1)]] ∧
      ((dedupById [[("id", Val.str "1"), ("a", Val.int 1)],
        [("id", Val.str "1"), ("b", Val.int 2)],
        [("id", Val.str "2")]]).1.filterMap (fun i => getProp i "id")).Nodup ∧
      (dedupById [[("id", Val.str "1"), ("a", Val.int 1)],
        [("id", Val.str "1"), ("b", Val.int 2)],
        [("id", Val.str "2")]]).2 =
        3 - (dedupById [[("id", Val.str "1"), ("a", Val.int 1)],
          [("id", Val.str "1"), ("b", Val.int 2)],
          [("id", Val.str "2")]]).1.length) ∧
    (dedupById [[("id", Val.str "1"), ("a", Val.int 1)],
        [("id", Val.str "1"), ("b", Val.int 2)],
        [("id", Val.str "2")]]).2 = 1 := by
  refine ⟨by decide, by decide, ?_, by decide⟩
  exact dedup_first_wins _ _ (by decide) _ (by decide)

/-! ## C2 — entity-resolution merge: the property union is not implemented -/

/-- The concrete C2 scenario: entity `e:1`, canonical person `n:1` and
duplicate person `pep:1` sharing name "X" (the duplicate also carries
`country = "PT"`), both associated with the entity and both linked to target
`t:1` by a `LINK` edge carrying `a = 1` resp. `b = 2`. -/
def mergeBugGraph : Graph :=
  { nodes := [⟨"Entity", [("id", .str "e:1")]⟩,
              ⟨"Person", [("id", .str "n:1"), ("person_name", .str "X")]⟩,
              ⟨"Person", [("id", .str "pep:1"), ("person_name", .str "X"),
                          ("country", .str "PT")]⟩,
              ⟨"Company", [("id", .str "t:1")]⟩]
    edges := [⟨"Person", .str "n:1", "Entity", .str "e:1", "ASSOCIATED_WITH", []⟩,
              ⟨"Person", .str "pep:1", "Entity", .str "e:1", "ASSOCIATED_WITH", []⟩,
              ⟨"Person", .str "n:1", "Company", .str "t:1", "LINK", [("a", .int 1)]⟩,
              ⟨"Person", .str "pep:1", "Company", .str "t:1", "LINK", [("b", .int 2)]⟩] }

/-- C2 evaluated on `mergeBugGraph`: `merge_duplicate_persons` finds the
`(n:1, pep:1)` pair; after the pass the duplicate is gone, the canonical node
keeps its id, gains `pep = true`, and exactly one `LINK` edge to `t:1`
remains with the additively merged properties `a = 1, b = 2` — but the
duplicate's `country` property is NOT transferred (the pass copies only
`person_name`/`pep`), so the canonical's property set is not the union of
both nodes' properties, contradicting the claim and the function's own
docstring ("Transfer all properties from the pep:* node (union)"). -/
theorem merge_duplicate_persons_drops_extra_props :
    findDuplicatePairs mergeBugGraph = [(.str "n:1", .str "pep:1")] ∧
    (findNode mergeBugGraph ("Person", .str "pep:1")).map
        (fun nd => getProp nd.props "country") = some (some (.str "PT")) ∧
    findNode (merge_duplicate_persons mergeBugGraph) ("Person", .str "pep:1") = none ∧
    getNodeProps (merge_duplicate_persons mergeBugGraph) ("Person", .str "n:1") =
      some [("id", .str "n:1"), ("person_name", .str "X"), ("pep", .bool true)] ∧
    ((merge_duplicate_persons mergeBugGraph).edges.filter
        (fun e => e.relType == "LINK" && e.fromId == Val.str "n:1")).length = 1 ∧
    getEdgeProps (merge_duplicate_persons mergeBugGraph).edges
        ("Person", .str "n:1", "Company", .str "t:1", "LINK") =
      some [("a", .int 1), ("b", .int 2)] ∧
    (getNodeProps (merge_duplicate_persons mergeBugGraph) ("Person", .str "n:1")).map
        (fun p => getProp p "country") = some none := by
  refine ⟨rfl, rfl, rfl, rfl, rfl, rfl, rfl⟩

/-! ## Sync-engine lemmas (C7, C8, C9) -/

/-- The node statements a window's entity buffers give rise to (label and
deduplicated batch per non-empty buffer) — a pure function of the buffers,
independent of the store and of the graph state. -/
def nodeEvsOf (ents : List (String × List PropMap)) : List Ev :=
  ents.filterMap (fun p =>
    if p.2.isEmpty then none
    else if (dedupById p.2).1.isEmpty then none
    else some (Ev.nodeFlush (labelOf p.1) (dedupById p.2).1))

theorem insertBatchNodes_events (store : GStore)
    (ents : List (String × List PropMap)) :
    ∀ g, (insertBatchNodes store ents g).2.2 = nodeEvsOf ents := by
  induction ents with
  | nil => intro g; rfl
  | cons p rest ih =>
    intro g
    obtain ⟨etype, items⟩ := p
    by_cases hi : items.isEmpty = true
    · have he : items = [] := by simpa using hi
      subst he
      simp [insertBatchNodes, nodeEvsOf, ih g]
    · by_cases hu : (dedupById items).1.isEmpty = true
      · have hi' : ¬ items = [] := by simpa using hi
        have hu' : (dedupById items).1 = [] := by simpa using hu
        simp [insertBatchNodes, nodeEvsOf, hi, hu, hi', hu', ih g]
      · have hi' : ¬ items = [] := by simpa using hi
        have hu' : ¬ (dedupById items).1 = [] := by simpa using hu
        cases hs : store (Stmt.nodes (labelOf etype) (dedupById items).1) g with
        | some gc => simp [insertBatchNodes, nodeEvsOf, hi, hu, hi', hu', hs, ih gc.1]
        | none => simp [insertBatchNodes, nodeEvsOf, hi, hu, hi', hu', hs, ih g]

theorem insertRelsGo_events (store : GStore)
    (groups : List (String × List RelItem)) :
    ∀ g, ∀ e ∈ (insertRelsGo store groups g).2.2, e.isNodeFlush = false := by
  induction groups with
  | nil => intro g e he; simp [insertRelsGo] at he
  | cons p rest ih =>
    intro g e
    obtain ⟨t, rs⟩ := p
    simp only [insertRelsGo]
    cases rs with
    | nil =>
      cases hs : store (Stmt.rels t "" "" []) g with
      | some gc =>
        intro he
        simp only [List.mem_cons] at he
        rcases he with rfl | he'
        · rfl
        · exact ih gc.1 e he'
      | none =>
        intro he
        simp only [List.mem_singleton] at he
        subst he
        rfl
    | cons h tl =>
      cases hs : store (Stmt.rels t h.from_label h.to_label (h :: tl)) g with
      | some gc =>
        intro he
        simp only [List.mem_cons] at he
        rcases he with rfl | he'
        · rfl
        · exact ih gc.1 e he'
      | none =>
        intro he
        simp only [List.mem_singleton] at he
        subst he
        rfl

theorem insertBatchRels_events (store : GStore) (rels : List RelItem) (g : Graph) :
    ∀ e ∈ (insertBatchRels store rels g).2.2, e.isNodeFlush = false := by
  intro e he
  unfold insertBatchRels at he
  by_cases hr : rels.isEmpty = true
  · rw [if_pos hr] at he
    simp at he
  · rw [if_neg hr] at he
    exact insertRelsGo_events store (groupByType rels) g e he

theorem nodeEvsOf_all_node (ents : List (String × List PropMap)) :
    ∀ e ∈ nodeEvsOf ents, e.isNodeFlush = true := by
  intro e he
  rcases List.mem_filterMap.mp he with ⟨p, _, hp⟩
  by_cases h1 : p.2.isEmpty = true
  · simp [h1] at hp
  · by_cases h2 : (dedupById p.2).1.isEmpty = true
    · simp [h1, h2] at hp
    · simp [h1, h2] at hp
      rw [← hp]
      rfl

/-- Was the mapper successful on this record? -/
def mapOk (mapper : Mapper) (d : RawDoc) : Bool :=
  match mapper d with
  | .ok _ => true
  | .error _ => false

/-- The message of a failing mapper call. -/
def errMsgOf (mapper : Mapper) (d : RawDoc) : String :=
  match mapper d with
  | .ok _ => ""
  | .error e => e

/-- The per-type node buffers a window accumulates. -/
def entitiesOfWindow (mapper : Mapper) (w : List RawDoc)
    (es0 : List (String × List PropMap)) : List (String × List PropMap) :=
  w.foldl (fun es d =>
    if pySkip d then es
    else match mapper d with
      | .ok gb => addEntities es gb.entities
      | .error _ => es) es0

/-- The node statements of a window are computed from the successfully mapped
documents only. -/
def expectedNodeEvs (mapper : Mapper) (w : List RawDoc) : List Ev :=
  nodeEvsOf (entitiesOfWindow mapper
    (w.filter (fun d => !pySkip d && mapOk mapper d)) [])

theorem mapDoc_skip (mapper : Mapper) (acc : MapAcc) (d : RawDoc)
    (h : pySkip d = true) : mapDoc mapper acc d = acc := by
  simp [mapDoc, h]

theorem mapPhase_failed (mapper : Mapper) (w : List RawDoc) :
    ∀ acc : MapAcc, (w.foldl (mapDoc mapper) acc).failed =
      acc.failed + (w.filter (fun d => !pySkip d && !(mapOk mapper d))).length := by
  induction w with
  | nil => intro acc; simp
  | cons d rest ih =>
    intro acc
    rw [List.foldl_cons, List.filter_cons]
    by_cases hs : pySkip d = true
    · rw [mapDoc_skip mapper acc d hs]
      simp [hs, ih acc]
    · cases hm : mapper d with
      | ok gb =>
        have h1 : mapDoc mapper acc d =
            { acc with
              entities := addEntities acc.entities gb.entities
              rels := acc.rels ++ gb.rels
              success := acc.success + 1 } := by
          simp [mapDoc, hs, hm]
        rw [h1, ih]
        simp [hs, mapOk, hm]
      | error e =>
        have h1 : mapDoc mapper acc d =
            { acc with
              failed := acc.failed + 1
              errors := acc.errors ++ [⟨errId d, e⟩] } := by
          simp [mapDoc, hs, hm]
        rw [h1, ih]
        simp [hs, mapOk, hm]
        omega

theorem mapPhase_success (mapper : Mapper) (w : List RawDoc) :
    ∀ acc : MapAcc, (w.foldl (mapDoc mapper) acc).success =
      acc.success + (w.filter (fun d => !pySkip d && mapOk mapper d)).length := by
  induction w with
  | nil => intro acc; simp
  | cons d rest ih =>
    intro acc
    rw [List.foldl_cons, List.filter_cons]
    by_cases hs : pySkip d = true
    · rw [mapDoc_skip mapper acc d hs]
      simp [hs, ih acc]
    · cases hm : mapper d with
      | ok gb =>
        have h1 : mapDoc mapper acc d =
            { acc with
              entities := addEntities acc.entities gb.entities
              rels := acc.rels ++ gb.rels
              success := acc.success + 1 } := by
          simp [mapDoc, hs, hm]
        rw [h1, ih]
        simp [hs, mapOk, hm]
        omega
      | error e =>
        have h1 : mapDoc mapper acc d =
            { acc with
              failed := acc.failed + 1
              errors := acc.errors ++ [⟨errId d, e⟩] } := by
          simp [mapDoc, hs, hm]
        rw [h1, ih]
        simp [hs, mapOk, hm]

theorem mapPhase_errors (mapper : Mapper) (w : List RawDoc) :
    ∀ acc : MapAcc, (w.foldl (mapDoc mapper) acc).errors =
      acc.errors ++ (w.filter (fun d => !pySkip d && !(mapOk mapper d))).map
        (fun d => ⟨errId d, errMsgOf mapper d⟩) := by
  induction w with
  | nil => intro acc; simp
  | cons d rest ih =>
    intro acc
    rw [List.foldl_cons, List.filter_cons]
    by_cases hs : pySkip d = true
    · rw [mapDoc_skip mapper acc d hs]
      simp [hs, ih acc]
    · cases hm : mapper d with
      | ok gb =>
        have h1 : mapDoc mapper acc d =
            { acc with
              entities := addEntities acc.entities gb.entities
              rels := acc.rels ++ gb.rels
              success := acc.success + 1 } := by
          simp [mapDoc, hs, hm]
        rw [h1, ih]
        simp [hs, mapOk, hm]
      | error e =>
        have h1 : mapDoc mapper acc d =
            { acc with
              failed := acc.failed + 1
              errors := acc.errors ++ [⟨errId d, e⟩] } := by
          simp [mapDoc, hs, hm]
        rw [h1, ih]
        simp [hs, mapOk, hm, errMsgOf]

theorem mapPhase_entities (mapper : Mapper) (w : List RawDoc) :
    ∀ acc : MapAcc, (w.foldl (mapDoc mapper) acc).entities =
      entitiesOfWindow mapper w acc.entities := by
  induction w with
  | nil => intro acc; rfl
  | cons d rest ih =>
    intro acc
    rw [List.foldl_cons]
    by_cases hs : pySkip d = true
    · rw [mapDoc_skip mapper acc d hs, ih acc]
      simp [entitiesOfWindow, List.foldl_cons, hs]
    · cases hm : mapper d with
      | ok gb =>
        have h1 : mapDoc mapper acc d =
            { acc with
              entities := addEntities acc.entities gb.entities
              rels := acc.rels ++ gb.rels
              success := acc.success + 1 } := by
          simp [mapDoc, hs, hm]
        rw [h1, ih]
        simp [entitiesOfWindow, List.foldl_cons, hs, hm]
      | error e =>
        have h1 : mapDoc mapper acc d =
            { acc with
              failed := acc.failed + 1
              errors := acc.errors ++ [⟨errId d, e⟩] } := by
          simp [mapDoc, hs, hm]
        rw [h1, ih]
        simp [entitiesOfWindow, List.foldl_cons, hs, hm]

/-- Skipped and failing documents contribute nothing to the node buffers. -/
theorem entitiesOfWindow_filter (mapper : Mapper) (w : List RawDoc) :
    ∀ es0, entitiesOfWindow mapper w es0 =
      entitiesOfWindow mapper (w.filter (fun d => !pySkip d && mapOk mapper d)) es0 := by
  induction w with
  | nil => intro es0; rfl
  | cons d rest ih =>
    intro es0
    rw [List.filter_cons]
    by_cases hs : pySkip d = true
    · simp only [entitiesOfWindow, List.foldl_cons, if_pos hs, hs]
      simpa [entitiesOfWindow] using ih es0
    · cases hm : mapper d with
      | ok gb =>
        simp only [entitiesOfWindow, List.foldl_cons, if_neg hs, hm, hs, mapOk]
        simpa [entitiesOfWindow, List.foldl_cons, if_neg hs, hm] using
          ih (addEntities es0 gb.entities)
      | error e =>
        simp only [entitiesOfWindow, List.foldl_cons, if_neg hs, hm, hs, mapOk]
        simpa [entitiesOfWindow] using ih es0

theorem filter_of_all_true {l : List Ev} (h : ∀ e ∈ l, Ev.isNodeFlush e = true) :
    l.filter Ev.isNodeFlush = l := by
  induction l with
  | nil => rfl
  | cons e rest ih =>
    rw [List.filter_cons, h e (List.mem_cons_self _ _)]
    simp only [if_true]
    rw [ih (fun e he => h e (List.mem_cons_of_mem _ he))]

theorem filter_of_all_false {l : List Ev} (h : ∀ e ∈ l, Ev.isNodeFlush e = false) :
    l.filter Ev.isNodeFlush = [] := by
  induction l with
  | nil => rfl
  | cons e rest ih =>
    rw [List.filter_cons, h e (List.mem_cons_self _ _)]
    simp only [Bool.false_eq_true, if_false]
    exact ih (fun e he => h e (List.mem_cons_of_mem _ he))

/-- One window appends exactly one trace: the node statements (a pure
function of the mapped entities) followed by relationship statements only. -/
theorem processWindow_trace (store : GStore) (mapper : Mapper)
    (w : List RawDoc) (r : SyncResult) :
    ∃ rEvs, (processWindow store mapper w r).traces =
        r.traces ++ [nodeEvsOf (mapPhase mapper w).entities ++ rEvs] ∧
      ∀ e ∈ rEvs, e.isNodeFlush = false := by
  unfold processWindow
  by_cases hr : (mapPhase mapper w).rels.isEmpty = true
  · refine ⟨[], ?_, by simp⟩
    simp [hr, insertBatchNodes_events]
  · refine ⟨(insertBatchRels store (mapPhase mapper w).rels
      (insertBatchNodes store (mapPhase mapper w).entities r.graph).1).2.2, ?_, ?_⟩
    · simp [hr, insertBatchNodes_events]
    · exact insertBatchRels_events store _ _

theorem processWindow_failed (store : GStore) (mapper : Mapper)
    (w : List RawDoc) (r : SyncResult) :
    (processWindow store mapper w r).failed =
      r.failed + (w.filter (fun d => !pySkip d && !(mapOk mapper d))).length := by
  show r.failed + (mapPhase mapper w).failed = _
  rw [mapPhase, mapPhase_failed]
  simp

theorem processWindow_processed (store : GStore) (mapper : Mapper)
    (w : List RawDoc) (r : SyncResult) :
    (processWindow store mapper w r).processed =
      r.processed + (w.filter (fun d => !pySkip d && mapOk mapper d)).length := by
  show r.processed + (mapPhase mapper w).success = _
  rw [mapPhase, mapPhase_success]
  simp

theorem processWindow_errors (store : GStore) (mapper : Mapper)
    (w : List RawDoc) (r : SyncResult) :
    (processWindow store mapper w r).errors =
      r.errors ++ (w.filter (fun d => !pySkip d && !(mapOk mapper d))).map
        (fun d => ⟨errId d, errMsgOf mapper d⟩) := by
  show r.errors ++ (mapPhase mapper w).errors = _
  rw [mapPhase, mapPhase_errors]
  simp

theorem nodeEvsOf_mapPhase (mapper : Mapper) (w : List RawDoc) :
    nodeEvsOf (mapPhase mapper w).entities = expectedNodeEvs mapper w := by
  rw [mapPhase, mapPhase_entities]
  show nodeEvsOf (entitiesOfWindow mapper w []) = _
  rw [entitiesOfWindow_filter]
  rfl

/-- The filtered trace of one window is exactly its node statements. -/
theorem processWindow_traces_filter (store : GStore) (mapper : Mapper)
    (w : List RawDoc) (r : SyncResult) :
    (processWindow store mapper w r).traces.map (fun tr => tr.filter Ev.isNodeFlush) =
      r.traces.map (fun tr => tr.filter Ev.isNodeFlush) ++ [expectedNodeEvs mapper w] := by
  obtain ⟨rEvs, htr, hall⟩ := processWindow_trace store mapper w r
  rw [htr, List.map_append]
  congr 1
  simp only [List.map_cons, List.map_nil, List.filter_append]
  rw [filter_of_all_true (nodeEvsOf_all_node _), filter_of_all_false hall,
    List.append_nil, nodeEvsOf_mapPhase]

theorem sync_fold_spec (store : GStore) (mapper : Mapper) :
    ∀ (ws : List (List RawDoc)) (r : SyncResult),
      (ws.foldl (fun r w => processWindow store mapper w r) r).failed = r.failed +
        ((ws.flatten).filter (fun d => !pySkip d && !(mapOk mapper d))).length ∧
      (ws.foldl (fun r w => processWindow store mapper w r) r).processed = r.processed +
        ((ws.flatten).filter (fun d => !pySkip d && mapOk mapper d)).length ∧
      (ws.foldl (fun r w => processWindow store mapper w r) r).errors = r.errors ++
        ((ws.flatten).filter (fun d => !pySkip d && !(mapOk mapper d))).map
          (fun d => ⟨errId d, errMsgOf mapper d⟩) ∧
      (ws.foldl (fun r w => processWindow store mapper w r) r).traces.map
          (fun tr => tr.filter Ev.isNodeFlush) =
        r.traces.map (fun tr => tr.filter Ev.isNodeFlush) ++
          ws.map (expectedNodeEvs mapper) := by
  intro ws
  induction ws with
  | nil => intro r; refine ⟨by simp, by simp, by simp, by simp⟩
  | cons w rest ih =>
    intro r
    obtain ⟨h1, h2, h3, h4⟩ := ih (processWindow store mapper w r)
    rw [List.foldl_cons]
    refine ⟨?_, ?_, ?_, ?_⟩
    · rw [h1, processWindow_failed]
      simp [List.filter_append, Nat.add_assoc]
    · rw [h2, processWindow_processed]
      simp [List.filter_append, Nat.add_assoc]
    · rw [h3, processWindow_errors]
      simp [List.filter_append]
    · rw [h4, processWindow_traces_filter]
      simp

theorem chunksGo_join (bs : Nat) :
    ∀ (fuel : Nat) (l : List RawDoc), l.length ≤ fuel →
      (chunksGo bs fuel l).flatten = l := by
  intro fuel
  induction fuel with
  | zero =>
    intro l hl
    have : l = [] := List.length_eq_zero.mp (Nat.le_zero.mp hl)
    subst this
    rfl
  | succ n ih =>
    intro l hl
    cases l with
    | nil => rfl
    | cons d rest =>
      show (((d :: rest).take (max bs 1)) ::
        chunksGo bs n ((d :: rest).drop (max bs 1))).flatten = d :: rest
      rw [List.flatten_cons, ih]
      · exact List.take_append_drop _ _
      · rw [List.length_drop, List.length_cons]
        rw [List.length_cons] at hl
        have h1 : 1 ≤ max bs 1 := le_max_right _ _
        omega

theorem chunks_join (bs : Nat) (l : List RawDoc) : (chunks bs l).flatten = l :=
  chunksGo_join bs l.length l le_rfl

/-- The `SyncStats` counters, the validation-error list, and the node-flush
statements of every window are pure functions of the fetched documents and
the mapper: the store and its failures play no part in them. -/
theorem sync_gold_db_spec (store : GStore) (docs : List RawDoc)
    (mapper : Mapper) (bs : Nat) (g0 : Graph) :
    (sync_gold_db store docs mapper bs g0).failed =
      (docs.filter (fun d => !pySkip d && !(mapOk mapper d))).length ∧
    (sync_gold_db store docs mapper bs g0).processed =
      (docs.filter (fun d => !pySkip d && mapOk mapper d)).length ∧
    (sync_gold_db store docs mapper bs g0).errors =
      (docs.filter (fun d => !pySkip d && !(mapOk mapper d))).map
        (fun d => ⟨errId d, errMsgOf mapper d⟩) ∧
    (sync_gold_db store docs mapper bs g0).traces.map
        (fun tr => tr.filter Ev.isNodeFlush) =
      (chunks bs docs).map (expectedNodeEvs mapper) := by
  obtain ⟨h1, h2, h3, h4⟩ :=
    sync_fold_spec store mapper (chunks bs docs) { graph := g0 }
  rw [chunks_join] at h1 h2 h3
  exact ⟨by simpa using h1, by simpa using h2, by simpa using h3, by simpa using h4⟩

/-- C7: in every sync window, all node-upsert statements are handed to the
store before any relationship-upsert statement of the same window: each
window's trace splits into a node-statement phase followed by a
relationship-statement phase. -/
theorem window_flush_ordering (store : GStore) (docs : List RawDoc)
    (mapper : Mapper) (bs : Nat) (g0 : Graph) :
    ∀ tr ∈ (sync_gold_db store docs mapper bs g0).traces,
      ∃ ns rs, tr = ns ++ rs ∧ (∀ e ∈ ns, e.isNodeFlush = true) ∧
        (∀ e ∈ rs, e.isNodeFlush = false) := by
  have main : ∀ (ws : List (List RawDoc)) (r : SyncResult),
      (∀ tr ∈ r.traces, ∃ ns rs, tr = ns ++ rs ∧
        (∀ e ∈ ns, e.isNodeFlush = true) ∧ (∀ e ∈ rs, e.isNodeFlush = false)) →
      ∀ tr ∈ (ws.foldl (fun r w => processWindow store mapper w r) r).traces,
        ∃ ns rs, tr = ns ++ rs ∧ (∀ e ∈ ns, e.isNodeFlush = true) ∧
          (∀ e ∈ rs, e.isNodeFlush = false) := by
    intro ws
    induction ws with
    | nil => intro r hr; exact hr
    | cons w rest ih =>
      intro r hr
      rw [List.foldl_cons]
      apply ih
      intro tr htr
      obtain ⟨rEvs, htrace, hall⟩ := processWindow_trace store mapper w r
      rw [htrace] at htr
      rcases List.mem_append.mp htr with h | h
      · exact hr tr h
      · rw [List.mem_singleton] at h
        subst h
        exact ⟨nodeEvsOf (mapPhase mapper w).entities, rEvs, rfl,
          nodeEvsOf_all_node _, hall⟩
  intro tr htr
  exact main (chunks bs docs) { graph := g0 } (by simp) tr htr

/-- Witness for C7: one record mapping to one node and one relationship; the
single window's trace is the node statement followed by the relationship
statement. -/
theorem window_flush_ordering_witness :
    ([Ev.nodeFlush "Thing" [[("id", Val.str "a")]], Ev.relFlush "KNOWS"] ∈
      (sync_gold_db pureStore [[("_id", Val.str "1")]]
        (fun _ => .ok (GraphBatch.mk [("Thing", [[("id", .str "a")]])]
          [⟨"Thing", .str "a", "Thing", .str "a", "KNOWS", []⟩]))
        10 ⟨[], []⟩).traces) ∧
    (∃ ns rs,
      [Ev.nodeFlush "Thing" [[("id", Val.str "a")]], Ev.relFlush "KNOWS"] = ns ++ rs ∧
      (∀ e ∈ ns, e.isNodeFlush = true) ∧ (∀ e ∈ rs, e.isNodeFlush = false)) := by
  have hmem : ([Ev.nodeFlush "Thing" [[("id", Val.str "a")]], Ev.relFlush "KNOWS"] ∈
      (sync_gold_db pureStore [[("_id", Val.str "1")]]
        (fun _ => .ok (GraphBatch.mk [("Thing", [[("id", .str "a")]])]
          [⟨"Thing", .str "a", "Thing", .str "a", "KNOWS", []⟩]))
        10 ⟨[], []⟩).traces) := by decide
  exact ⟨hmem, window_flush_ordering _ _ _ _ _ _ hmem⟩

/-- C8: every record whose mapper raises is caught: it contributes exactly
one error entry carrying that record's id, is counted as failed (not
processed), contributes no entities to any flushed node statement, and the
run continues with the remaining records — `failed`, `processed`, the error
list, and the per-window node statements are exactly the ones determined by
the mapper's successes and failures. -/
theorem mapping_failure_recovery (store : GStore) (docs : List RawDoc)
    (mapper : Mapper) (bs : Nat) (g0 : Graph) :
    (sync_gold_db store docs mapper bs g0).failed =
      (docs.filter (fun d => !pySkip d && !(mapOk mapper d))).length ∧
    (sync_gold_db store docs mapper bs g0).processed =
      (docs.filter (fun d => !pySkip d && mapOk mapper d)).length ∧
    (sync_gold_db store docs mapper bs g0).errors =
      (docs.filter (fun d => !pySkip d && !(mapOk mapper d))).map
        (fun d => ⟨errId d, errMsgOf mapper d⟩) ∧
    (sync_gold_db store docs mapper bs g0).traces.map
        (fun tr => tr.filter Ev.isNodeFlush) =
      (chunks bs docs).map (expectedNodeEvs mapper) :=
  sync_gold_db_spec store docs mapper bs g0

/-- C9: store failures while flushing are swallowed: no exception escapes
`sync_gold_db` (it is a total function of its inputs), a flush failure is
never added to the validation-error list and never increments the
failed-records counter, and processing continues — every window is still
processed and every label buffer's node statement is still attempted,
whatever the store does.  Formally, the error list, both counters, the
number of windows, and the per-window node-statement traces are identical
for any two stores (and any two store states). -/
theorem flush_failures_swallowed (docs : List RawDoc) (mapper : Mapper)
    (bs : Nat) (g0 g0' : Graph) (store store' : GStore) :
    (sync_gold_db store docs mapper bs g0).errors =
      (sync_gold_db store' docs mapper bs g0').errors ∧
    (sync_gold_db store docs mapper bs g0).failed =
      (sync_gold_db store' docs mapper bs g0').failed ∧
    (sync_gold_db store docs mapper bs g0).processed =
      (sync_gold_db store' docs mapper bs g0').processed ∧
    (sync_gold_db store docs mapper bs g0).traces.length =
      (sync_gold_db store' docs mapper bs g0').traces.length ∧
    (sync_gold_db store docs mapper bs g0).traces.map
        (fun tr => tr.filter Ev.isNodeFlush) =
      (sync_gold_db store' docs mapper bs g0').traces.map
        (fun tr => tr.filter Ev.isNodeFlush) := by
  obtain ⟨a1, a2, a3, a4⟩ := sync_gold_db_spec store docs mapper bs g0
  obtain ⟨b1, b2, b3, b4⟩ := sync_gold_db_spec store' docs mapper bs g0'
  refine ⟨a3.trans b3.symm, a1.trans b1.symm, a2.trans b2.symm, ?_, a4.trans b4.symm⟩
  have la := congrArg List.length a4
  have lb := congrArg List.length b4
  simp only [List.length_map] at la lb
  exact la.trans lb.symm

/-! ## C3 — the COMPETED_WITH pass -/

theorem charListLt_asymm :
    ∀ xs ys : List Char, charListLt xs ys = true → charListLt ys xs = false := by
  intro xs
  induction xs with
  | nil =>
    intro ys h
    cases ys with
    | nil => simp [charListLt] at h
    | cons b bs => simp [charListLt]
  | cons a as ih =>
    intro ys h
    cases ys with
    | nil => simp [charListLt] at h
    | cons b bs =>
      by_cases hab : a < b
      · have hba : ¬ b < a := lt_asymm hab
        simp [charListLt, hab, hba]
      · by_cases hba : b < a
        · simp [charListLt, hab, hba] at h
        · simp [charListLt, hab, hba] at h ⊢
          exact ih bs h

theorem ltVal_asymm (x y : Val) (h : ltVal x y = true) : ltVal y x = false := by
  cases x with
  | str a =>
    cases y with
    | str b => exact charListLt_asymm _ _ h
    | int n => rfl
    | bool v => rfl
  | int m =>
    cases y with
    | str b => rfl
    | int n =>
      simp [ltVal] at h ⊢
      omega
    | bool v => rfl
  | bool u =>
    cases y <;> simp [ltVal] at h

theorem cwMatches_props (x y : Val) (e : GEdge) (q : PropMap) :
    cwMatches x y { e with props := q } = cwMatches x y e := rfl

/-- Two distinct ordered pairs never match the same undirected
`COMPETED_WITH` pattern. -/
theorem cwMatches_excl {aId bId a' b' : Val} (hlt : ltVal aId bId = true)
    (hlt' : ltVal a' b' = true) (hne : ¬ (a' = aId ∧ b' = bId)) (e : GEdge)
    (h : cwMatches aId bId e = true) : cwMatches a' b' e = false := by
  cases hbb : cwMatches a' b' e with
  | false => rfl
  | true =>
    exfalso
    simp only [cwMatches, Bool.and_eq_true, Bool.or_eq_true, beq_iff_eq] at h hbb
    obtain ⟨⟨⟨hrel, hfl⟩, htl⟩, hor⟩ := h
    obtain ⟨⟨⟨hrel', hfl'⟩, htl'⟩, hor'⟩ := hbb
    rcases hor with ⟨h1, h2⟩ | ⟨h1, h2⟩ <;> rcases hor' with ⟨h1', h2'⟩ | ⟨h1', h2'⟩
    · exact hne ⟨h1'.symm.trans h1, h2'.symm.trans h2⟩
    · have ha : a' = bId := h2'.symm.trans h2
      have hb : b' = aId := h1'.symm.trans h1
      subst ha
      subst hb
      rw [ltVal_asymm _ _ hlt] at hlt'
      cases hlt'
    · have ha : a' = bId := h1'.symm.trans h1
      have hb : b' = aId := h2'.symm.trans h2
      subst ha
      subst hb
      rw [ltVal_asymm _ _ hlt] at hlt'
      cases hlt'
    · exact hne ⟨h2'.symm.trans h2, h1'.symm.trans h1⟩

theorem filter_map_invar {α : Type} {p : α → Bool} {f : α → α}
    (h1 : ∀ e, p (f e) = p e) (h2 : ∀ e, p e = true → f e = e) :
    ∀ es : List α, (es.map f).filter p = es.filter p := by
  intro es
  induction es with
  | nil => rfl
  | cons e rest ih =>
    rw [List.map_cons, List.filter_cons, List.filter_cons, h1 e]
    cases hp : p e with
    | true => rw [h2 e hp, ih]
    | false => exact ih

theorem filter_map_comm {α : Type} {p : α → Bool} {f : α → α}
    (h1 : ∀ e, p (f e) = p e) :
    ∀ es : List α, (es.map f).filter p = (es.filter p).map f := by
  intro es
  induction es with
  | nil => rfl
  | cons e rest ih =>
    rw [List.map_cons, List.filter_cons, List.filter_cons, h1 e]
    cases hp : p e with
    | true => simp [ih]
    | false => simp [ih]

/-- Processing another pair's row leaves this pair's matched edges exactly as
they were. -/
theorem upsertCW_other (aId bId a' b' : Val) (cc : Nat) (h : Graph)
    (hlt : ltVal aId bId = true) (hlt' : ltVal a' b' = true)
    (hne : ¬ (a' = aId ∧ b' = bId)) :
    (upsertCompetedWith a' b' cc h).edges.filter (cwMatches aId bId) =
      h.edges.filter (cwMatches aId bId) := by
  have hne' : ¬ (aId = a' ∧ bId = b') := by
    rintro ⟨x1, x2⟩
    exact hne ⟨x1.symm, x2.symm⟩
  unfold upsertCompetedWith
  by_cases hany : h.edges.any (cwMatches a' b') = true
  · rw [if_pos hany]
    apply filter_map_invar
    · intro e
      by_cases he : cwMatches a' b' e = true <;> simp [he, cwMatches_props]
    · intro e hpe
      have hx : cwMatches a' b' e = false := cwMatches_excl hlt hlt' hne e hpe
      simp [hx]
  · rw [if_neg hany]
    show (h.edges ++ [_]).filter (cwMatches aId bId) = _
    rw [List.filter_append]
    have hnew : cwMatches aId bId
        ⟨"Entity", a', "Entity", b', "COMPETED_WITH",
          [("competition_count", .int cc)]⟩ = false :=
      cwMatches_excl hlt' hlt hne' _ (by simp [cwMatches])
    simp [hnew]

/-- Processing this pair's own row leaves exactly one matched edge carrying
the row's count. -/
theorem upsertCW_self (aId bId : Val) (cc : Nat) (h : Graph)
    (hpre : (h.edges.filter (cwMatches aId bId)).length ≤ 1) :
    ((upsertCompetedWith aId bId cc h).edges.filter (cwMatches aId bId)).length = 1 ∧
    ∀ e ∈ (upsertCompetedWith aId bId cc h).edges.filter (cwMatches aId bId),
      getProp e.props "competition_count" = some (.int cc) := by
  unfold upsertCompetedWith
  by_cases hany : h.edges.any (cwMatches aId bId) = true
  · rw [if_pos hany]
    have hpres : ∀ e : GEdge, cwMatches aId bId
        (if cwMatches aId bId e then
          { e with props := setProp "competition_count" (.int cc) e.props }
        else e) = cwMatches aId bId e := by
      intro e
      by_cases he : cwMatches aId bId e = true <;> simp [he, cwMatches_props]
    rw [filter_map_comm hpres]
    constructor
    · rw [List.length_map]
      have h1 : 0 < (h.edges.filter (cwMatches aId bId)).length := by
        rcases List.any_eq_true.mp hany with ⟨e, he, hpe⟩
        have hm : e ∈ h.edges.filter (cwMatches aId bId) :=
          List.mem_filter.mpr ⟨he, hpe⟩
        exact List.length_pos.mpr (List.ne_nil_of_mem hm)
      omega
    · intro e he
      rcases List.mem_map.mp he with ⟨e0, he0, rfl⟩
      have hpe0 : cwMatches aId bId e0 = true := (List.mem_filter.mp he0).2
      simp [hpe0, getProp_setProp_self]
  · rw [if_neg hany]
    show ((h.edges ++ [_]).filter (cwMatches aId bId)).length = 1 ∧ _
    have hnil : h.edges.filter (cwMatches aId bId) = [] := by
      cases hh : h.edges.filter (cwMatches aId bId) with
      | nil => rfl
      | cons e tl =>
        have hmem : e ∈ h.edges.filter (cwMatches aId bId) := by
          rw [hh]
          exact List.mem_cons_self _ _
        obtain ⟨hm, hp⟩ := List.mem_filter.mp hmem
        exact absurd (List.any_eq_true.mpr ⟨e, hm, hp⟩) hany
    have hnew : cwMatches aId bId
        ⟨"Entity", aId, "Entity", bId, "COMPETED_WITH",
          [("competition_count", .int cc)]⟩ = true := by
      simp [cwMatches]
    rw [List.filter_append, hnil]
    constructor
    · simp [hnew]
    · intro e he
      simp [hnew] at he
      subst he
      rfl

theorem competed_fold (aId bId : Val) (k : Nat) (hlt : ltVal aId bId = true) :
    ∀ (rows : List CompRow) (h : Graph),
      (∀ row ∈ rows, ltVal row.aId row.bId = true) →
      (∀ row ∈ rows, row.aId = aId → row.bId = bId → row.cc = k) →
      (((h.edges.filter (cwMatches aId bId)).length ≤ 1 →
        (((rows.foldl (fun h row => upsertCompetedWith row.aId row.bId row.cc h)
          h).edges.filter (cwMatches aId bId)).length ≤ 1)) ∧
      ((((h.edges.filter (cwMatches aId bId)).length = 1 ∧
          ∀ e ∈ h.edges.filter (cwMatches aId bId),
            getProp e.props "competition_count" = some (.int k)) →
        (((rows.foldl (fun h row => upsertCompetedWith row.aId row.bId row.cc h)
            h).edges.filter (cwMatches aId bId)).length = 1 ∧
          ∀ e ∈ (rows.foldl (fun h row => upsertCompetedWith row.aId row.bId row.cc h)
              h).edges.filter (cwMatches aId bId),
            getProp e.props "competition_count" = some (.int k))) ∧
      ((h.edges.filter (cwMatches aId bId)).length ≤ 1 →
        (∃ row ∈ rows, row.aId = aId ∧ row.bId = bId) →
        (((rows.foldl (fun h row => upsertCompetedWith row.aId row.bId row.cc h)
            h).edges.filter (cwMatches aId bId)).length = 1 ∧
          ∀ e ∈ (rows.foldl (fun h row => upsertCompetedWith row.aId row.bId row.cc h)
              h).edges.filter (cwMatches aId bId),
            getProp e.props "competition_count" = some (.int k))))) := by
  intro rows
  induction rows with
  | nil =>
    intro h _ _
    refine ⟨fun hp => hp, fun hq => hq, fun _ hmem => ?_⟩
    rcases hmem with ⟨row, hm, _⟩
    simp at hm
  | cons row rest ih =>
    intro h hlts hccs
    have hltr : ltVal row.aId row.bId = true := hlts row (List.mem_cons_self _ _)
    have ihr := ih (upsertCompetedWith row.aId row.bId row.cc h)
      (fun r hr => hlts r (List.mem_cons_of_mem _ hr))
      (fun r hr => hccs r (List.mem_cons_of_mem _ hr))
    rw [List.foldl_cons]
    by_cases hrow : row.aId = aId ∧ row.bId = bId
    · obtain ⟨hr1, hr2⟩ := hrow
      have hcck : row.cc = k := hccs row (List.mem_cons_self _ _) hr1 hr2
      have harg : upsertCompetedWith row.aId row.bId row.cc h =
          upsertCompetedWith aId bId k h := by rw [hr1, hr2, hcck]
      rw [harg] at ihr ⊢
      refine ⟨?_, ?_, ?_⟩
      · intro hp
        exact (ihr.2.1 (upsertCW_self aId bId k h hp)).1.le
      · intro hq0
        exact ihr.2.1 (upsertCW_self aId bId k h hq0.1.le)
      · intro hp _
        exact ihr.2.1 (upsertCW_self aId bId k h hp)
    · have hno : (upsertCompetedWith row.aId row.bId row.cc h).edges.filter
          (cwMatches aId bId) = h.edges.filter (cwMatches aId bId) :=
        upsertCW_other aId bId row.aId row.bId row.cc h hlt hltr hrow
      refine ⟨?_, ?_, ?_⟩
      · intro hp
        exact ihr.1 (by rw [hno]; exact hp)
      · intro hq
        exact ihr.2.1 (by rw [hno]; exact hq)
      · intro hp hmem
        rcases hmem with ⟨r, hm, hr⟩
        rcases List.mem_cons.mp hm with rfl | hm'
        · exact absurd hr hrow
        · exact ihr.2.2 (by rw [hno]; exact hp) ⟨r, hm', hr⟩

theorem competedRows_facts (g : Graph) :
    ∀ row ∈ competedRows g, ltVal row.aId row.bId = true ∧
      row.cc = sharedTenderCount g row.aId row.bId ∧ 0 < row.cc := by
  intro row hrow
  unfold competedRows at hrow
  rcases List.mem_flatMap.mp hrow with ⟨a, _, hmem⟩
  rcases List.mem_filterMap.mp hmem with ⟨b, _, hfb⟩
  cases hva : getProp a.props "id" with
  | none => rw [hva] at hfb; simp at hfb
  | some va =>
    cases hvb : getProp b.props "id" with
    | none => rw [hva, hvb] at hfb; simp at hfb
    | some vb =>
      rw [hva, hvb] at hfb
      change (if ltVal va vb = true then
          if 0 < sharedTenderCount g va vb then
            some (⟨va, vb, sharedTenderCount g va vb⟩ : CompRow)
          else none
        else none) = some row at hfb
      by_cases hlt : ltVal va vb = true
      · rw [if_pos hlt] at hfb
        by_cases hcc : 0 < sharedTenderCount g va vb
        · rw [if_pos hcc] at hfb
          injection hfb with hfb'
          subst hfb'
          exact ⟨hlt, rfl, hcc⟩
        · rw [if_neg hcc] at hfb
          cases hfb
      · rw [if_neg hlt] at hfb
        cases hfb

theorem competedRow_mem (g : Graph) (a b : GNode) (ha : a ∈ g.nodes)
    (hla : a.label = "Entity") (hb : b ∈ g.nodes) (hlb : b.label = "Entity")
    (va vb : Val) (hva : getProp a.props "id" = some va)
    (hvb : getProp b.props "id" = some vb) (hlt : ltVal va vb = true)
    (hcc : 0 < sharedTenderCount g va vb) :
    ∃ row ∈ competedRows g, row.aId = va ∧ row.bId = vb := by
  refine ⟨⟨va, vb, sharedTenderCount g va vb⟩, ?_, rfl, rfl⟩
  unfold competedRows
  apply List.mem_flatMap.mpr
  refine ⟨a, List.mem_filter.mpr ⟨ha, by simp [hla]⟩, ?_⟩
  apply List.mem_filterMap.mpr
  refine ⟨b, List.mem_filter.mpr ⟨hb, by simp [hlb]⟩, ?_⟩
  rw [hva, hvb]
  simp [hlt, hcc]

theorem upsertCW_nodes (a' b' : Val) (cc : Nat) (h : Graph) :
    (upsertCompetedWith a' b' cc h).nodes = h.nodes := by
  unfold upsertCompetedWith
  by_cases hany : h.edges.any (cwMatches a' b') = true
  · rw [if_pos hany]
  · rw [if_neg hany]

theorem create_competed_with_nodes (g : Graph) :
    (create_competed_with g).nodes = g.nodes := by
  unfold create_competed_with
  generalize competedRows g = rows
  induction rows generalizing g with
  | nil => rfl
  | cons row rest ih =>
    rw [List.foldl_cons]
    rw [ih (upsertCompetedWith row.aId row.bId row.cc g)]
    exact upsertCW_nodes _ _ _ _

theorem tendererEdge_props (ns : List GNode) (v : Val) (e : GEdge) (q : PropMap) :
    tendererEdge ns v { e with props := q } = tendererEdge ns v e := rfl

/-- A `COMPETED_WITH` upsert never changes which edges witness the tenderer
pattern: it only appends `COMPETED_WITH` edges and only rewrites properties
of `COMPETED_WITH` edges. -/
theorem upsertCW_tenderEdges (ns : List GNode) (v a' b' : Val) (cc : Nat)
    (h : Graph) :
    (upsertCompetedWith a' b' cc h).edges.filter (tendererEdge ns v) =
      h.edges.filter (tendererEdge ns v) := by
  unfold upsertCompetedWith
  by_cases hany : h.edges.any (cwMatches a' b') = true
  · rw [if_pos hany]
    apply filter_map_invar
    · intro e
      by_cases he : cwMatches a' b' e = true <;> simp [he, tendererEdge_props]
    · intro e hpe
      have hrel : e.relType = "IS_TENDERER_FOR" := by
        simp only [tendererEdge, Bool.and_eq_true, beq_iff_eq] at hpe
        exact hpe.1.1.1.1
      have hcw : cwMatches a' b' e = false := by
        simp [cwMatches, hrel]
      simp [hcw]
  · rw [if_neg hany]
    show (h.edges ++ [_]).filter (tendererEdge ns v) = _
    rw [List.filter_append]
    have hnew : tendererEdge ns v
        ⟨"Entity", a', "Entity", b', "COMPETED_WITH",
          [("competition_count", .int cc)]⟩ = false := by
      simp [tendererEdge]
    simp [hnew]

theorem create_competed_with_tenderEdges (ns : List GNode) (v : Val) (g : Graph) :
    (create_competed_with g).edges.filter (tendererEdge ns v) =
      g.edges.filter (tendererEdge ns v) := by
  unfold create_competed_with
  generalize competedRows g = rows
  induction rows generalizing g with
  | nil => rfl
  | cons row rest ih =>
    rw [List.foldl_cons, ih (upsertCompetedWith row.aId row.bId row.cc g),
      upsertCW_tenderEdges]

theorem create_competed_with_shared (g : Graph) (va vb : Val) :
    sharedTenderCount (create_competed_with g) va vb = sharedTenderCount g va vb := by
  unfold sharedTenderCount tendererTendersOf tendererTendersOfL
  rw [create_competed_with_nodes, create_competed_with_tenderEdges,
    create_competed_with_tenderEdges]

/-- C3: for every pair of Entity nodes `(a, b)` with `a.id < b.id` sharing
`k > 0` distinct tenders via `IS_TENDERER_FOR`, and at most one pre-existing
undirected `COMPETED_WITH` edge between them, `create_competed_with` leaves
exactly one `COMPETED_WITH` edge between them whose `competition_count` is
exactly `k` (overwritten, not accumulated); re-running the pass on the
unchanged graph again leaves exactly one edge with the same count. -/
theorem competed_with_pass (g : Graph) (a b : GNode) (ha : a ∈ g.nodes)
    (hla : a.label = "Entity") (hb : b ∈ g.nodes) (hlb : b.label = "Entity")
    (va vb : Val) (hva : getProp a.props "id" = some va)
    (hvb : getProp b.props "id" = some vb) (hlt : ltVal va vb = true) (k : Nat)
    (hk : sharedTenderCount g va vb = k) (hk0 : 0 < k)
    (hpre : (g.edges.filter (cwMatches va vb)).length ≤ 1) :
    (((create_competed_with g).edges.filter (cwMatches va vb)).length = 1 ∧
      ∀ e ∈ (create_competed_with g).edges.filter (cwMatches va vb),
        getProp e.props "competition_count" = some (.int k)) ∧
    (((create_competed_with (create_competed_with g)).edges.filter
        (cwMatches va vb)).length = 1 ∧
      ∀ e ∈ (create_competed_with (create_competed_with g)).edges.filter
          (cwMatches va vb),
        getProp e.props "competition_count" = some (.int k)) := by
  have main : ∀ g' : Graph, a ∈ g'.nodes → b ∈ g'.nodes →
      sharedTenderCount g' va vb = k →
      (g'.edges.filter (cwMatches va vb)).length ≤ 1 →
      (((create_competed_with g').edges.filter (cwMatches va vb)).length = 1 ∧
        ∀ e ∈ (create_competed_with g').edges.filter (cwMatches va vb),
          getProp e.props "competition_count" = some (.int k)) := by
    intro g' ha' hb' hk' hpre'
    have hfold := competed_fold va vb k hlt (competedRows g') g'
      (fun row hr => (competedRows_facts g' row hr).1)
      (fun row hr h1 h2 => by
        have hc := (competedRows_facts g' row hr).2.1
        rw [h1, h2] at hc
        rw [hc, hk'])
    have hmem := competedRow_mem g' a b ha' hla hb' hlb va vb hva hvb hlt
      (by rw [hk']; exact hk0)
    exact hfold.2.2 hpre' hmem
  have first := main g ha hb hk hpre
  have hnodes := create_competed_with_nodes g
  have second := main (create_competed_with g)
    (by rw [hnodes]; exact ha) (by rw [hnodes]; exact hb)
    (by rw [create_competed_with_shared, hk])
    (by rw [first.1])
  exact ⟨first, second⟩

/-- The concrete C3 scenario: entities `1` and `2`, both tenderers for
tenders `t1` and `t2`. -/
def cwWitnessGraph : Graph :=
  ⟨[⟨"Entity", [("id", .str "1")]⟩, ⟨"Entity", [("id", .str "2")]⟩,
      ⟨"Tender", [("id", .str "t1")]⟩, ⟨"Tender", [("id", .str "t2")]⟩],
    [⟨"Entity", .str "1", "Tender", .str "t1", "IS_TENDERER_FOR", []⟩,
      ⟨"Entity", .str "2", "Tender", .str "t1", "IS_TENDERER_FOR", []⟩,
      ⟨"Entity", .str "1", "Tender", .str "t2", "IS_TENDERER_FOR", []⟩,
      ⟨"Entity", .str "2", "Tender", .str "t2", "IS_TENDERER_FOR", []⟩]⟩

/-- Witness for C3: two entities sharing two tenders; the pass creates one
`COMPETED_WITH` edge with `competition_count = 2`, and a second run keeps it
at 2 (not 4). -/
theorem competed_with_pass_witness :
    sharedTenderCount cwWitnessGraph (.str "1") (.str "2") = 2 ∧
    ((((create_competed_with cwWitnessGraph).edges.filter
          (cwMatches (.str "1") (.str "2"))).length = 1 ∧
        ∀ e ∈ (create_competed_with cwWitnessGraph).edges.filter
            (cwMatches (.str "1") (.str "2")),
          getProp e.props "competition_count" = some (.int 2)) ∧
      (((create_competed_with (create_competed_with cwWitnessGraph)).edges.filter
          (cwMatches (.str "1") (.str "2"))).length = 1 ∧
        ∀ e ∈ (create_competed_with (create_competed_with cwWitnessGraph)).edges.filter
            (cwMatches (.str "1") (.str "2")),
          getProp e.props "competition_count" = some (.int 2))) := by
  refine ⟨by decide, ?_⟩
  exact competed_with_pass cwWitnessGraph
    ⟨"Entity", [("id", .str "1")]⟩ ⟨"Entity", [("id", .str "2")]⟩
    (by decide) rfl (by decide) rfl
    (.str "1") (.str "2") rfl rfl (by decide) 2 (by decide) (by decide) (by decide)

/-! ## C1 — idempotence of the upsert statements and of `sync_gold_db` -/

theorem chunks_single (bs : Nat) (docs : List RawDoc) (hbs : 0 < bs)
    (hlen : docs.length ≤ bs) (hne : docs ≠ []) : chunks bs docs = [docs] := by
  unfold chunks
  cases docs with
  | nil => exact absurd rfl hne
  | cons d rest =>
    show chunksGo bs (d :: rest).length (d :: rest) = [d :: rest]
    rw [List.length_cons, chunksGo]
    have hmax : max bs 1 = bs := Nat.max_eq_left hbs
    have htake : (d :: rest).take (max bs 1) = d :: rest := by
      apply List.take_of_length_le
      rw [hmax]
      exact hlen
    have hdrop : (d :: rest).drop (max bs 1) = [] := by
      apply List.drop_eq_nil_of_le
      rw [hmax]
      exact hlen
    rw [htake, hdrop]
    cases rest <;> rfl

theorem sync_single_window (store : GStore) (docs : List RawDoc)
    (mapper : Mapper) (bs : Nat) (g0 : Graph) (hbs : 0 < bs)
    (hlen : docs.length ≤ bs) (hne : docs ≠ []) :
    sync_gold_db store docs mapper bs g0 =
      processWindow store mapper docs { graph := g0 } := by
  unfold sync_gold_db
  rw [chunks_single bs docs hbs hlen hne]
  rfl

/-- The node statements a window's buffers produce: per non-empty buffer,
the normalized label and the deduplicated batch. -/
def nodeStmtsOf (ents : List (String × List PropMap)) :
    List (String × List PropMap) :=
  ents.filterMap (fun p =>
    if p.2.isEmpty then none
    else if (dedupById p.2).1.isEmpty then none
    else some (labelOf p.1, (dedupById p.2).1))

/-- Execute node statements in order. -/
def nodesApplyS (S : List (String × List PropMap)) (ns : List GNode) : List GNode :=
  S.foldl (fun acc s => execNodeBatch s.1 s.2 acc) ns

/-- The relationship-group statements: type and the match labels baked in
from each group's first item. -/
def relStmtsOf (groups : List (String × List RelItem)) :
    List (String × String × String × List RelItem) :=
  groups.map (fun p =>
    match p.2 with
    | [] => (p.1, "", "", p.2)
    | h :: _ => (p.1, h.from_label, h.to_label, p.2))

/-- Execute relationship-group statements in order against a fixed node
list. -/
def relApplyS (RS : List (String × String × String × List RelItem))
    (ns : List GNode) (es : List GEdge) : List GEdge :=
  RS.foldl (fun es' s => s.2.2.2.foldl (relBatchRow s.1 s.2.1 s.2.2.1 ns) es') es

theorem insertBatchNodes_pure (ents : List (String × List PropMap)) :
    ∀ g : Graph, (insertBatchNodes pureStore ents g).1 =
      ⟨nodesApplyS (nodeStmtsOf ents) g.nodes, g.edges⟩ := by
  induction ents with
  | nil => intro g; rfl
  | cons p rest ih =>
    intro g
    obtain ⟨etype, items⟩ := p
    by_cases hi : items.isEmpty = true
    · have he : items = [] := by simpa using hi
      subst he
      simp [insertBatchNodes, nodeStmtsOf, nodesApplyS, ih g]
    · by_cases hu : (dedupById items).1.isEmpty = true
      · have hi' : ¬ items = [] := by simpa using hi
        have hu' : (dedupById items).1 = [] := by simpa using hu
        simp [insertBatchNodes, nodeStmtsOf, nodesApplyS, hi, hu, hi', hu', ih g]
      · have hi' : ¬ items = [] := by simpa using hi
        have hu' : ¬ (dedupById items).1 = [] := by simpa using hu
        have hstep : insertBatchNodes pureStore ((etype, items) :: rest) g =
            (let res := insertBatchNodes pureStore rest
              (execStmt (Stmt.nodes (labelOf etype) (dedupById items).1) g)
             (res.1, countOfStmt (Stmt.nodes (labelOf etype) (dedupById items).1) g + res.2.1,
              Ev.nodeFlush (labelOf etype) (dedupById items).1 :: res.2.2)) := by
          simp [insertBatchNodes, hi, hu, pureStore]
        rw [hstep]
        show (insertBatchNodes pureStore rest
          (execStmt (Stmt.nodes (labelOf etype) (dedupById items).1) g)).1 = _
        rw [ih]
        simp [nodeStmtsOf, nodesApplyS, hi, hu, hi', hu', execStmt]

theorem insertRelsGo_pure (groups : List (String × List RelItem)) :
    ∀ g : Graph, (insertRelsGo pureStore groups g).1 =
      ⟨g.nodes, relApplyS (relStmtsOf groups) g.nodes g.edges⟩ := by
  induction groups with
  | nil => intro g; rfl
  | cons p rest ih =>
    intro g
    obtain ⟨t, rs⟩ := p
    cases rs with
    | nil =>
      have hstep : (insertRelsGo pureStore ((t, []) :: rest) g).1 =
          (insertRelsGo pureStore rest (execStmt (Stmt.rels t "" "" []) g)).1 := by
        simp [insertRelsGo, pureStore]
      rw [hstep, ih]
      rfl
    | cons h tl =>
      have hstep : (insertRelsGo pureStore ((t, h :: tl) :: rest) g).1 =
          (insertRelsGo pureStore rest
            (execStmt (Stmt.rels t h.from_label h.to_label (h :: tl)) g)).1 := by
        simp [insertRelsGo, pureStore]
      rw [hstep, ih]
      rfl

theorem insertBatchRels_pure (rels : List RelItem) (g : Graph) :
    (insertBatchRels pureStore rels g).1 =
      if rels.isEmpty then g
      else ⟨g.nodes, relApplyS (relStmtsOf (groupByType rels)) g.nodes g.edges⟩ := by
  unfold insertBatchRels
  by_cases hr : rels.isEmpty = true
  · rw [if_pos hr, if_pos hr]
  · rw [if_neg hr, if_neg hr]
    exact insertRelsGo_pure (groupByType rels) g

/-- With the pure store, one window's effect on the graph is: execute the
node statements, then (if the window accumulated relationships) the
relationship statements against the updated node list. -/
theorem processWindow_pure_graph (mapper : Mapper) (w : List RawDoc)
    (r : SyncResult) :
    (processWindow pureStore mapper w r).graph =
      ⟨nodesApplyS (nodeStmtsOf (mapPhase mapper w).entities) r.graph.nodes,
        if (mapPhase mapper w).rels.isEmpty then r.graph.edges
        else relApplyS (relStmtsOf (groupByType (mapPhase mapper w).rels))
          (nodesApplyS (nodeStmtsOf (mapPhase mapper w).entities) r.graph.nodes)
          r.graph.edges⟩ := by
  show (if (mapPhase mapper w).rels.isEmpty then
      ((insertBatchNodes pureStore (mapPhase mapper w).entities r.graph).1, 0, ([] : List Ev))
    else insertBatchRels pureStore (mapPhase mapper w).rels
      (insertBatchNodes pureStore (mapPhase mapper w).entities r.graph).1).1 = _
  by_cases hr : (mapPhase mapper w).rels.isEmpty = true
  · rw [if_pos hr, if_pos hr]
    rw [insertBatchNodes_pure]
  · rw [if_neg hr, if_neg hr]
    rw [insertBatchNodes_pure, insertBatchRels_pure, if_neg hr]

/-- The last batch item any node statement of the list assigns to a given
identity (last write wins across the window's statements). -/
def lastAssignS : List (String × List PropMap) → NodeKey → Option PropMap
  | [], _ => none
  | (l, b) :: rest, k =>
    optOr (lastAssignS rest k) (if l = k.1 then lastWithId b k.2 else none)

theorem getPropsL_nodesApplyS (S : List (String × List PropMap)) :
    ∀ (ns : List GNode) (k1 : String) (k2 : Val),
      getPropsL (nodesApplyS S ns) (k1, k2) =
        optOr (lastAssignS S (k1, k2)) (getPropsL ns (k1, k2)) := by
  induction S with
  | nil => intro ns k1 k2; rfl
  | cons s rest ih =>
    intro ns k1 k2
    obtain ⟨l, b⟩ := s
    show getPropsL (nodesApplyS rest (execNodeBatch l b ns)) (k1, k2) = _
    rw [ih, getPropsL_execNodeBatch]
    rw [show lastAssignS ((l, b) :: rest) (k1, k2) =
      optOr (lastAssignS rest (k1, k2))
        (if l = k1 then lastWithId b k2 else none) from rfl]
    rw [optOr_assoc]

theorem getPropsL_isSome (ns : List GNode) (k : NodeKey) :
    (getPropsL ns k).isSome = (findNodeL ns k).isSome := by
  unfold getPropsL
  cases findNodeL ns k <;> rfl

theorem upsertNodeK_length_present (k : NodeKey) (item : PropMap)
    (ns : List GNode) (h : (findNodeL ns k).isSome = true) :
    (upsertNodeK k item ns).length = ns.length := by
  induction ns with
  | nil => simp [findNodeL] at h
  | cons nd rest ih =>
    rw [findNodeL_cons] at h
    by_cases hc : nd.label = k.1 ∧ getProp nd.props "id" = some k.2
    · simp [upsertNodeK, hc]
    · rw [if_neg hc] at h
      simp [upsertNodeK, hc, ih h]

theorem upsertNodeItem_length (l : String) (item : PropMap) (ns : List GNode)
    (h : ∀ w, getProp item "id" = some w → (findNodeL ns (l, w)).isSome = true) :
    (upsertNodeItem l item ns).length = ns.length := by
  unfold upsertNodeItem
  cases hid : getProp item "id" with
  | none => rfl
  | some w => exact upsertNodeK_length_present (l, w) item ns (h w hid)

theorem upsertNodeItem_presence (l : String) (item : PropMap) (ns : List GNode)
    (k1 : String) (k2 : Val) (h : (findNodeL ns (k1, k2)).isSome = true) :
    (findNodeL (upsertNodeItem l item ns) (k1, k2)).isSome = true := by
  rw [← getPropsL_isSome] at h ⊢
  rw [getPropsL_upsertNodeItem]
  by_cases hc : l = k1 ∧ getProp item "id" = some k2
  · rw [if_pos hc]
    rfl
  · rw [if_neg hc]
    exact h

theorem execNodeBatch_presence (l : String) (b : List PropMap) :
    ∀ (ns : List GNode) (k1 : String) (k2 : Val),
      (findNodeL ns (k1, k2)).isSome = true →
      (findNodeL (execNodeBatch l b ns) (k1, k2)).isSome = true := by
  induction b with
  | nil => intro ns k1 k2 h; exact h
  | cons it rest ih =>
    intro ns k1 k2 h
    exact ih (upsertNodeItem l it ns) k1 k2 (upsertNodeItem_presence l it ns k1 k2 h)

theorem execNodeBatch_length (l : String) (b : List PropMap) :
    ∀ ns : List GNode,
      (∀ it ∈ b, ∀ w, getProp it "id" = some w →
        (findNodeL ns (l, w)).isSome = true) →
      (execNodeBatch l b ns).length = ns.length := by
  induction b with
  | nil => intro ns _; rfl
  | cons it rest ih =>
    intro ns h
    show (execNodeBatch l rest (upsertNodeItem l it ns)).length = ns.length
    have h1 : (upsertNodeItem l it ns).length = ns.length :=
      upsertNodeItem_length l it ns (fun w hw => h it (List.mem_cons_self _ _) w hw)
    have h2 : ∀ it' ∈ rest, ∀ w, getProp it' "id" = some w →
        (findNodeL (upsertNodeItem l it ns) (l, w)).isSome = true :=
      fun it' hm w hw =>
        upsertNodeItem_presence l it ns l w (h it' (List.mem_cons_of_mem _ hm) w hw)
    rw [ih _ h2, h1]

theorem lastWithId_isSome {b : List PropMap} {it : PropMap} {w : Val}
    (hm : it ∈ b) (hw : getProp it "id" = some w) : lastWithId b w ≠ none := by
  induction b with
  | nil => simp at hm
  | cons it0 rest ih =>
    show optOr (lastWithId rest w)
      (if getProp it0 "id" = some w then some it0 else none) ≠ none
    rcases List.mem_cons.mp hm with rfl | hm'
    · rw [if_pos hw]
      cases lastWithId rest w <;> simp [optOr]
    · have := ih hm'
      cases hx : lastWithId rest w with
      | none => exact absurd hx this
      | some p => simp [optOr]

theorem nodesApplyS_length (S : List (String × List PropMap)) :
    ∀ ns : List GNode,
      (∀ k : NodeKey, lastAssignS S k ≠ none → (findNodeL ns k).isSome = true) →
      (nodesApplyS S ns).length = ns.length := by
  induction S with
  | nil => intro ns _; rfl
  | cons s rest ih =>
    intro ns h
    obtain ⟨l, b⟩ := s
    show (nodesApplyS rest (execNodeBatch l b ns)).length = ns.length
    have hb : ∀ it ∈ b, ∀ w, getProp it "id" = some w →
        (findNodeL ns (l, w)).isSome = true := by
      intro it hm w hw
      apply h (l, w)
      show optOr (lastAssignS rest (l, w))
        (if l = l then lastWithId b w else none) ≠ none
      rw [if_pos rfl]
      cases hx : lastAssignS rest (l, w) with
      | some p => simp [optOr]
      | none =>
        show optOr none (lastWithId b w) ≠ none
        rw [optOr_none]
        exact lastWithId_isSome hm hw
    have h2 : ∀ k : NodeKey, lastAssignS rest k ≠ none →
        (findNodeL (execNodeBatch l b ns) k).isSome = true := by
      intro k hk
      obtain ⟨k1, k2⟩ := k
      apply execNodeBatch_presence
      apply h (k1, k2)
      show optOr (lastAssignS rest (k1, k2)) _ ≠ none
      cases hx : lastAssignS rest (k1, k2) with
      | none => exact absurd hx hk
      | some p => simp [optOr]
    rw [ih _ h2, execNodeBatch_length l b ns hb]

theorem hasEdge_mergeEdgeK_self (k : EdgeKey) (es : List GEdge) :
    hasEdge (mergeEdgeK k es) k = true := by
  unfold mergeEdgeK
  by_cases h : hasEdge es k = true
  · rw [if_pos h]; exact h
  · rw [if_neg h]
    have hk : edgeKey (⟨k.1, k.2.1, k.2.2.1, k.2.2.2.1, k.2.2.2.2, []⟩ : GEdge) = k := rfl
    simp [hasEdge, List.any_append, hk]

theorem hasEdge_mergeEdgeK (k' k : EdgeKey) (es : List GEdge)
    (h : hasEdge es k = true) : hasEdge (mergeEdgeK k' es) k = true := by
  unfold mergeEdgeK
  by_cases hc : hasEdge es k' = true
  · rw [if_pos hc]; exact h
  · rw [if_neg hc]
    unfold hasEdge at h ⊢
    rw [List.any_append]
    simp [h]

theorem hasEdge_relBatchRow (t fl tl : String) (ns : List GNode)
    (es : List GEdge) (it : RelItem) (k : EdgeKey)
    (h : hasEdge es k = true) :
    hasEdge (relBatchRow t fl tl ns es it) k = true := by
  unfold relBatchRow
  by_cases hc : ((findNodeL ns (fl, it.from_id)).isSome &&
      (findNodeL ns (tl, it.to_id)).isSome) = true
  · rw [if_pos hc]; exact hasEdge_mergeEdgeK _ k es h
  · rw [if_neg hc]; exact h

theorem hasEdge_relBatchFold (t fl tl : String) (ns : List GNode) :
    ∀ (b : List RelItem) (es : List GEdge) (k : EdgeKey), hasEdge es k = true →
      hasEdge (b.foldl (relBatchRow t fl tl ns) es) k = true := by
  intro b
  induction b with
  | nil => intro es k h; exact h
  | cons it rest ih =>
    intro es k h
    exact ih _ k (hasEdge_relBatchRow t fl tl ns es it k h)

theorem hasEdge_relApplyS (ns : List GNode) :
    ∀ (RS : List (String × String × String × List RelItem))
      (es : List GEdge) (k : EdgeKey), hasEdge es k = true →
      hasEdge (relApplyS RS ns es) k = true := by
  intro RS
  induction RS with
  | nil => intro es k h; exact h
  | cons s rest ih =>
    intro es k h
    exact ih (s.2.2.2.foldl (relBatchRow s.1 s.2.1 s.2.2.1 ns) es) k
      (hasEdge_relBatchFold s.1 s.2.1 s.2.2.1 ns s.2.2.2 es k h)

theorem relBatchFold_establishes (t fl tl : String) (ns : List GNode)
    (it : RelItem)
    (hf : (findNodeL ns (fl, it.from_id)).isSome = true)
    (ht : (findNodeL ns (tl, it.to_id)).isSome = true) :
    ∀ b : List RelItem, it ∈ b → ∀ es : List GEdge,
      hasEdge (b.foldl (relBatchRow t fl tl ns) es)
        (fl, it.from_id, tl, it.to_id, t) = true := by
  intro b
  induction b with
  | nil => intro hm; simp at hm
  | cons it0 rest ih =>
    intro hm es
    rcases List.mem_cons.mp hm with heq | hm'
    · have h1 : hasEdge (relBatchRow t fl tl ns es it0)
          (fl, it.from_id, tl, it.to_id, t) = true := by
        rw [← heq]
        unfold relBatchRow
        rw [if_pos (by simp [hf, ht])]
        exact hasEdge_mergeEdgeK_self _ es
      exact hasEdge_relBatchFold t fl tl ns rest _ _ h1
    · exact ih hm' (relBatchRow t fl tl ns es it0)

theorem relApplyS_establishes (ns : List GNode) :
    ∀ (RS : List (String × String × String × List RelItem))
      (es : List GEdge) (s : String × String × String × List RelItem),
      s ∈ RS → ∀ it ∈ s.2.2.2,
      (findNodeL ns (s.2.1, it.from_id)).isSome = true →
      (findNodeL ns (s.2.2.1, it.to_id)).isSome = true →
      hasEdge (relApplyS RS ns es)
        (s.2.1, it.from_id, s.2.2.1, it.to_id, s.1) = true := by
  intro RS
  induction RS with
  | nil => intro es s hs; simp at hs
  | cons s0 rest ih =>
    intro es s hs it hit hf ht
    rcases List.mem_cons.mp hs with heq | hs'
    · subst heq
      exact hasEdge_relApplyS ns rest _ _
        (relBatchFold_establishes s.1 s.2.1 s.2.2.1 ns it hf ht s.2.2.2 hit es)
    · exact ih (s0.2.2.2.foldl (relBatchRow s0.1 s0.2.1 s0.2.2.1 ns) es)
        s hs' it hit hf ht

theorem relBatchFold_id (t fl tl : String) (ns : List GNode) :
    ∀ (b : List RelItem) (es : List GEdge),
      (∀ it ∈ b,
        ((findNodeL ns (fl, it.from_id)).isSome &&
          (findNodeL ns (tl, it.to_id)).isSome) = true →
        hasEdge es (fl, it.from_id, tl, it.to_id, t) = true) →
      b.foldl (relBatchRow t fl tl ns) es = es := by
  intro b
  induction b with
  | nil => intro es _; rfl
  | cons it rest ih =>
    intro es h
    have hrow : relBatchRow t fl tl ns es it = es := by
      unfold relBatchRow
      by_cases hc : ((findNodeL ns (fl, it.from_id)).isSome &&
          (findNodeL ns (tl, it.to_id)).isSome) = true
      · rw [if_pos hc]
        unfold mergeEdgeK
        rw [if_pos (h it (List.mem_cons_self _ _) hc)]
      · rw [if_neg hc]
    show rest.foldl (relBatchRow t fl tl ns) (relBatchRow t fl tl ns es it) = es
    rw [hrow]
    exact ih es (fun it' hm' hc => h it' (List.mem_cons_of_mem _ hm') hc)

theorem relApplyS_id (ns : List GNode) :
    ∀ (RS : List (String × String × String × List RelItem)) (es : List GEdge),
      (∀ s ∈ RS, ∀ it ∈ s.2.2.2,
        ((findNodeL ns (s.2.1, it.from_id)).isSome &&
          (findNodeL ns (s.2.2.1, it.to_id)).isSome) = true →
        hasEdge es (s.2.1, it.from_id, s.2.2.1, it.to_id, s.1) = true) →
      relApplyS RS ns es = es := by
  intro RS
  induction RS with
  | nil => intro es _; rfl
  | cons s rest ih =>
    intro es h
    have hs : s.2.2.2.foldl (relBatchRow s.1 s.2.1 s.2.2.1 ns) es = es :=
      relBatchFold_id s.1 s.2.1 s.2.2.1 ns s.2.2.2 es
        (fun it hm hc => h s (List.mem_cons_self _ _) it hm hc)
    show relApplyS rest ns (s.2.2.2.foldl (relBatchRow s.1 s.2.1 s.2.2.1 ns) es) = es
    rw [hs]
    exact ih es (fun s' hm' it hm hc => h s' (List.mem_cons_of_mem _ hm') it hm hc)

/-- What a caller of the loader can observe of the graph through the loader's
own access paths: how many nodes there are, each identity's property map
(first match, as MATCH resolves it), and the edge list. -/
def GraphObsEq (g g' : Graph) : Prop :=
  g.nodes.length = g'.nodes.length ∧
  (∀ k : NodeKey, getNodeProps g k = getNodeProps g' k) ∧
  g.edges = g'.edges

theorem pure_window_obs_idempotent
    (S : List (String × List PropMap))
    (RS : List (String × String × String × List RelItem))
    (n0 : List GNode) (e0 : List GEdge) :
    (nodesApplyS S (nodesApplyS S n0)).length = (nodesApplyS S n0).length ∧
    (∀ k : NodeKey, getPropsL (nodesApplyS S (nodesApplyS S n0)) k =
      getPropsL (nodesApplyS S n0) k) ∧
    relApplyS RS (nodesApplyS S (nodesApplyS S n0))
        (relApplyS RS (nodesApplyS S n0) e0) =
      relApplyS RS (nodesApplyS S n0) e0 := by
  have hpres1 : ∀ k : NodeKey, lastAssignS S k ≠ none →
      (findNodeL (nodesApplyS S n0) k).isSome = true := by
    intro k hk
    obtain ⟨k1, k2⟩ := k
    rw [← getPropsL_isSome, getPropsL_nodesApplyS]
    cases hx : lastAssignS S (k1, k2) with
    | none => exact absurd hx hk
    | some p => rfl
  have hlook : ∀ k : NodeKey,
      getPropsL (nodesApplyS S (nodesApplyS S n0)) k =
        getPropsL (nodesApplyS S n0) k := by
    intro k
    obtain ⟨k1, k2⟩ := k
    rw [getPropsL_nodesApplyS S (nodesApplyS S n0) k1 k2,
        getPropsL_nodesApplyS S n0 k1 k2, optOr_self_absorb]
  have hfind : ∀ k : NodeKey,
      (findNodeL (nodesApplyS S (nodesApplyS S n0)) k).isSome =
        (findNodeL (nodesApplyS S n0) k).isSome := by
    intro k
    rw [← getPropsL_isSome, ← getPropsL_isSome, hlook k]
  refine ⟨nodesApplyS_length S (nodesApplyS S n0) hpres1, hlook, ?_⟩
  apply relApplyS_id
  intro s hs it hit hc
  rw [hfind, hfind] at hc
  rw [Bool.and_eq_true] at hc
  exact relApplyS_establishes (nodesApplyS S n0) RS e0 s hs it hit hc.1 hc.2

/-- **C1** (amended): when the fetched documents fit in a single batch window
(`0 < batchSize` and `docs.length ≤ batchSize`), running `sync_gold_db` a
second time over the same documents, against the pure in-memory store, leaves
the graph produced by the first run observably unchanged: the node count, every
identity's property map, and the edge list are the same.  (Without the
single-window restriction this fails: a relationship flushed in an earlier
window whose endpoint node is first upserted in a later window is only created
by the second run — see the counterexample.) -/
theorem sync_twice_single_window (docs : List RawDoc) (mapper : Mapper)
    (bs : Nat) (g0 : Graph) (hbs : 0 < bs) (hlen : docs.length ≤ bs) :
    GraphObsEq
      (sync_gold_db pureStore docs mapper bs
        (sync_gold_db pureStore docs mapper bs g0).graph).graph
      (sync_gold_db pureStore docs mapper bs g0).graph := by
  by_cases hd : docs = []
  · subst hd
    exact ⟨rfl, fun _ => rfl, rfl⟩
  · have hG1 := sync_single_window pureStore docs mapper bs g0 hbs hlen hd
    have hG2 := sync_single_window pureStore docs mapper bs
      (sync_gold_db pureStore docs mapper bs g0).graph hbs hlen hd
    rw [hG2, hG1, processWindow_pure_graph, processWindow_pure_graph]
    by_cases hr : (mapPhase mapper docs).rels.isEmpty = true
    · simp only [if_pos hr]
      exact ⟨(pure_window_obs_idempotent
          (nodeStmtsOf (mapPhase mapper docs).entities) [] g0.nodes g0.edges).1,
        fun k => (pure_window_obs_idempotent
          (nodeStmtsOf (mapPhase mapper docs).entities) [] g0.nodes g0.edges).2.1 k,
        rfl⟩
    · simp only [if_neg hr]
      obtain ⟨h1, h2, h3⟩ := pure_window_obs_idempotent
        (nodeStmtsOf (mapPhase mapper docs).entities)
        (relStmtsOf (groupByType (mapPhase mapper docs).rels)) g0.nodes g0.edges
      exact ⟨h1, fun k => h2 k, h3⟩

/-- Two one-document windows; the first document's batch carries a
relationship whose target node is only upserted by the second window. -/
def cexDocs : List RawDoc := [[("_id", Val.str "1")], [("_id", Val.str "2")]]

def cexMapper : Mapper := fun d =>
  if getProp d "_id" = some (.str "1") then
    .ok (GraphBatch.mk [("thing", [[("id", Val.str "a")]])]
      [⟨"Thing", Val.str "a", "Thing", Val.str "b", "REL", []⟩])
  else
    .ok (GraphBatch.mk [("thing", [[("id", Val.str "b")]])] [])

/-- **C1** (counterexample to the unrestricted claim): with `batch_size = 1`,
the first run of `sync_gold_db` creates no edge — the relationship's `MATCH`
on its target misses, since that node is only flushed by the later window —
while the second run, finding both endpoints, creates it.  The second run is
therefore not a graph no-op. -/
theorem sync_twice_not_noop_cex :
    (sync_gold_db pureStore cexDocs cexMapper 1 ⟨[], []⟩).graph.edges.length = 0 ∧
    (sync_gold_db pureStore cexDocs cexMapper 1
      (sync_gold_db pureStore cexDocs cexMapper 1 ⟨[], []⟩).graph).graph.edges.length
      = 1 := by
  decide

theorem sync_twice_single_window_witness :
    0 < 10 ∧ cexDocs.length ≤ 10 ∧
    GraphObsEq
      (sync_gold_db pureStore cexDocs cexMapper 10
        (sync_gold_db pureStore cexDocs cexMapper 10 ⟨[], []⟩).graph).graph
      (sync_gold_db pureStore cexDocs cexMapper 10 ⟨[], []⟩).graph :=
  ⟨by decide, by decide,
    sync_twice_single_window cexDocs cexMapper 10 ⟨[], []⟩ (by decide) (by decide)⟩
